import Mathlib

/-!
Shallow embedding of the LWIS transaction processor
(`src/lwis_transaction.c`) and proofs about it.

Modelling conventions:
* Kernel linked lists and the per-client hash table become Lean `List`s
  (the hash of event lists becomes an association list `List (Int × List …)`
  traversed in order, which abstracts the hash-bucket traversal order).
* The `io_entries` array is shared by pointer between an EVERY_TIME
  transaction and its clones, and is mutated in place by `lwis_entry_bias`;
  we model this with an explicit heap `List (Nat × List LwisIoEntry)` keyed
  by an allocation pointer, so aliasing and in-place mutation are faithful.
* The device register backend `vops.register_io` (out of scope per the spec)
  is a parameter `regIo : Regs → LwisIoEntry → Except Int (Regs × Nat)`;
  the `Nat` is the value captured by a read-type entry.  Poll entries are
  dispatched through the same abstract backend inside `process_transaction`
  (the standalone poll loop `lwis_entry_poll` is modelled separately, with
  its read/clock trace made explicit).
* Machine integers: event ids, counters, transaction ids and error codes are
  `int64_t`/`int` in C and become `Int`; register offsets, values, masks and
  sizes are `uint64_t`/`size_t` and become `Nat` (no claim exercises 64-bit
  wrap-around, so the `% 2^64` reduction is omitted from the arithmetic).
* Allocation failures (`kzalloc` returning NULL) are modelled by explicit
  boolean oracles passed to the operations that allocate.
-/

namespace LWIS

/-! ### Error codes (linux errno values; the C code returns their negations) -/

def ENOENT : Int := 2
def ENOMEM : Int := 12
def EINVAL : Int := 22
def ETIMEDOUT : Int := 110
def ECANCELED : Int := 125

/-- Modelled from the spec: sentinel for "no trigger event, run immediately"
(`LWIS_EVENT_ID_NONE`, defined in a header that is not under `src/`). Only
its distinctness from real event ids matters. -/
def LWIS_EVENT_ID_NONE : Int := -1

/-- Modelled from the spec: trigger-counter sentinel "on next occurrence"
(`LWIS_EVENT_COUNTER_ON_NEXT_OCCURRENCE`, header not under `src/`). -/
def LWIS_EVENT_COUNTER_ON_NEXT_OCCURRENCE : Int := -1

/-- Modelled from the spec: trigger-counter sentinel "every occurrence"
(`LWIS_EVENT_COUNTER_EVERY_TIME`, header not under `src/`). -/
def LWIS_EVENT_COUNTER_EVERY_TIME : Int := -2

/-- Modelled from the spec: the reserved client-cleanup event id
(`LWIS_EVENT_ID_CLIENT_CLEANUP`, header not under `src/`). -/
def LWIS_EVENT_ID_CLIENT_CLEANUP : Int := -3

/-- `EXPLICIT_EVENT_COUNTER(x)` macro: the counter is neither sentinel. -/
def EXPLICIT_EVENT_COUNTER (x : Int) : Bool :=
  x ≠ LWIS_EVENT_COUNTER_ON_NEXT_OCCURRENCE ∧ x ≠ LWIS_EVENT_COUNTER_EVERY_TIME

/-! ### I/O entries (`struct lwis_io_entry`, tagged union) -/

inductive LwisIoEntry where
  | read (bid : Int) (offset : Nat)
  | write (bid : Int) (offset : Nat) (val : Nat)
  | readBatch (bid : Int) (offset : Nat) (size_in_bytes : Nat)
  | writeBatch (bid : Int) (offset : Nat) (size_in_bytes : Nat)
  | modify (bid : Int) (offset : Nat) (val : Nat) (mask : Nat)
  | setBias (bias : Nat)
  | poll (bid : Int) (offset : Nat) (val : Nat) (mask : Nat) (timeout_ms : Nat)
  deriving DecidableEq, Repr

/-- `lwis_entry_bias`: adds the accumulated bias to the entry's offset, in
place, for WRITE/READ, WRITE_BATCH/READ_BATCH and MODIFY entries only. -/
def lwis_entry_bias : LwisIoEntry → Nat → LwisIoEntry
  | .read b o, bias => .read b (o + bias)
  | .write b o v, bias => .write b (o + bias) v
  | .readBatch b o s, bias => .readBatch b (o + bias) s
  | .writeBatch b o s, bias => .writeBatch b (o + bias) s
  | .modify b o v m, bias => .modify b (o + bias) v m
  | e, _ => e

/-- Offset field of an entry (0 for a SetBias entry, which has none). -/
def entryOffset : LwisIoEntry → Nat
  | .read _ o => o
  | .write _ o _ => o
  | .readBatch _ o _ => o
  | .writeBatch _ o _ => o
  | .modify _ o _ _ => o
  | .setBias _ => 0
  | .poll _ o _ _ _ => o

/-- Whether `lwis_entry_bias` applies the bias to this entry type. -/
def biasedType : LwisIoEntry → Bool
  | .read _ _ => true
  | .write _ _ _ => true
  | .readBatch _ _ _ => true
  | .writeBatch _ _ _ => true
  | .modify _ _ _ _ => true
  | .setBias _ => false
  | .poll _ _ _ _ _ => false

/-! ### The poll loop (`lwis_entry_poll`)

The loop interacts with the environment through repeated register reads and
a millisecond clock; both are modelled as a trace indexed by the read
attempt number.  The C loop has no iteration bound (it exits by match,
read error or timeout), so the Lean model takes a fuel argument; `none`
means the fuel ran out before the loop exited. -/

structure PollTrace where
  /-- Result of the i-th `lwis_device_single_register_read` call. -/
  readResult : Nat → Except Int Nat
  /-- `ktime_to_ms(lwis_get_time())` observed at the timeout check that
  follows the i-th read. -/
  timeAfter : Nat → Nat
  /-- `ktime_to_ms(lwis_get_time())` observed before the first read. -/
  start : Nat

/-- Loop body of `lwis_entry_poll`: read, compare under the mask, check the
timeout, re-check the `while (val != entry->poll.val)` condition, repeat.
Returns `some 0` on a masked match, `some e` on a read error `e`,
`some (-ETIMEDOUT)` on timeout, `none` if the fuel ran out. -/
def pollLoop (tr : PollTrace) (pval mask : Nat) (timeout_ms : Nat) :
    Nat → Nat → Option Int
  | 0, _ => none
  | fuel + 1, i =>
    match tr.readResult i with
    | .error e => some e
    | .ok v =>
      if v &&& mask == pval &&& mask then some 0
      else if timeout_ms < tr.timeAfter i - tr.start then some (-ETIMEDOUT)
      else if v ≠ pval then pollLoop tr pval mask timeout_ms fuel (i + 1)
      else some (-ETIMEDOUT)

/-- `lwis_entry_poll`, with the device reads and the clock abstracted into
`tr`.  The initialization `val = ~entry->poll.val` (64-bit complement) makes
the first `while` test true for every 64-bit `pval`, which the model checks
explicitly before entering the loop. -/
def lwis_entry_poll (tr : PollTrace) (pval mask timeout_ms : Nat)
    (fuel : Nat) : Option Int :=
  let val0 := 2 ^ 64 - 1 - pval % 2 ^ 64
  if val0 ≠ pval then pollLoop tr pval mask timeout_ms fuel 0
  else some (-ETIMEDOUT)

/-! ### Registers, device backend, transactions, client state -/

/-- The device register file, keyed by (block id, offset). -/
def Regs : Type := Int × Nat → Nat

/-- Abstract register-access backend: one device interaction for an entry
(`vops.register_io`, or the whole poll for a POLL entry).  Returns the new
register file and the value captured by a read-type entry, or a negative
error code. -/
def RegIo : Type := Regs → LwisIoEntry → Except Int (Regs × Nat)

/-- The device fields `lwis_transaction.c` consults
(`struct lwis_device`, header not under `src/`; fields from their uses). -/
structure LwisDevice where
  regIo : RegIo
  native_value_bitwidth : Int
  /-- `type == DEVICE_TYPE_I2C` -/
  isI2c : Bool
  enabled : Bool

/-- One record of the response's result buffer (`struct lwis_io_result`). -/
structure IoResult where
  bid : Int
  offset : Nat
  num_value_bytes : Int
  value : Nat
  deriving DecidableEq, Repr

/-- `struct lwis_transaction_response_header` plus the trailing result
buffer, modelled as a list of `IoResult`. -/
structure Response where
  id : Int
  error_code : Int
  num_entries : Int
  results_size_bytes : Int
  completion_index : Int
  results : List IoResult
  deriving DecidableEq, Repr

/-- `struct lwis_transaction_info` (header not under `src/`; fields from
their uses in `lwis_transaction.c`).  `io_entries` is a pointer into the
entry heap, so that an EVERY_TIME original and its clones genuinely share
one entry array. -/
structure TransactionInfo where
  id : Int
  trigger_event_id : Int
  trigger_event_counter : Int
  current_trigger_event_counter : Int
  entriesPtr : Nat
  emit_success_event_id : Int
  emit_error_event_id : Int
  allow_counter_eq : Bool
  run_in_event_context : Bool
  deriving DecidableEq, Repr

/-- `struct lwis_transaction` with its response allocated
(every transaction that sits in a queue or event list has one). -/
structure Transaction where
  info : TransactionInfo
  resp : Response
  deriving DecidableEq, Repr

/-- One pushed pending event (`lwis_pending_event_push`). -/
structure Emission where
  event_id : Int
  resp : Response
  deriving DecidableEq, Repr

/-- Per-client state touched by `lwis_transaction.c`, plus the device
register file and the shared entry heap. -/
structure ClientState where
  /-- `transaction_process_queue` (the ready queue). -/
  transaction_process_queue : List Transaction
  /-- The hash table `transaction_list` of per-event waiting lists,
  as an association list event id ↦ waiting transactions. -/
  transaction_list : List (Int × List Transaction)
  transaction_counter : Int
  /-- Device-wide event states: event id ↦ `event_counter`. -/
  dev_event_states : List (Int × Int)
  /-- Client event states: the set of event ids present. -/
  client_event_states : List Int
  /-- Heap of `io_entries` arrays, keyed by allocation pointer. -/
  entriesHeap : List (Nat × List LwisIoEntry)
  nextPtr : Nat
  regs : Regs
  /-- `debug_info.transaction_hist`, abstracted to an append-only list. -/
  history : List TransactionInfo

/-- Association-list lookup (`hash_for_each_possible` / list search). -/
def alistFind {α : Type} (k : Int) : List (Int × α) → Option α
  | [] => none
  | (k', v) :: rest => if k' = k then some v else alistFind k rest

/-- Association-list update of an existing key. -/
def alistSet {α : Type} (k : Int) (v : α) : List (Int × α) → List (Int × α)
  | [] => []
  | (k', v') :: rest =>
    if k' = k then (k', v) :: rest else (k', v') :: alistSet k v rest

/-- Heap lookup for an entry-array pointer. -/
def heapFind (p : Nat) : List (Nat × List LwisIoEntry) → Option (List LwisIoEntry)
  | [] => none
  | (p', v) :: rest => if p' = p then some v else heapFind p rest

/-- Heap update at a pointer. -/
def heapSet (p : Nat) (v : List LwisIoEntry) :
    List (Nat × List LwisIoEntry) → List (Nat × List LwisIoEntry)
  | [] => []
  | (p', v') :: rest =>
    if p' = p then (p, v) :: rest else (p', v') :: heapSet p v rest

/-- Heap free (`kvfree(io_entries)`). -/
def heapErase (p : Nat) :
    List (Nat × List LwisIoEntry) → List (Nat × List LwisIoEntry)
  | [] => []
  | (p', v') :: rest =>
    if p' = p then rest else (p', v') :: heapErase p rest

/-! ### The entry interpreter loop of `process_transaction` -/

/-- Result of running the entry loop: final `error_code` contribution
(0 if every entry succeeded), final `completion_index`, the result records
captured by successful read-type entries, the final register file, and the
entry array as left in memory (biased offsets are in-place mutations). -/
structure RunResult where
  error_code : Int
  completion_index : Int
  results : List IoResult
  regs : Regs
  entries : List LwisIoEntry
  /-- Final value of the loop-local `bias` variable (recorded so that runs
  over split entry lists compose). -/
  bias : Nat

/-- Result record captured for a read-type entry (`io_result` fields filled
in by the READ / READ_BATCH branches of `process_transaction`). -/
def entryRes (dev : LwisDevice) (e' : LwisIoEntry) (v : Nat) : List IoResult :=
  match e' with
  | .read b o => [⟨b, o, dev.native_value_bitwidth / 8, v⟩]
  | .readBatch b o s => [⟨b, o, (s : Int), v⟩]
  | _ => []

/-- The `for (i = 0; i < info->num_io_entries; ++i)` loop of
`process_transaction`: apply the bias, dispatch the entry to the backend
(BIAS entries only update the local bias), stop at the first error with
`completion_index` still holding the previous value (`i - 1`), record a
result for read-type entries.  `width` is
`lwis_dev->native_value_bitwidth`. -/
def runEntries (dev : LwisDevice) :
    List LwisIoEntry → Regs → Nat → Int → RunResult
  | [], regs, bias, i => ⟨0, i - 1, [], regs, [], bias⟩
  | e :: rest, regs, bias, i =>
    let e' := lwis_entry_bias e bias
    match e' with
    | .setBias b =>
      let r := runEntries dev rest regs b (i + 1)
      { r with entries := e' :: r.entries }
    | _ =>
      match dev.regIo regs e' with
      | .error c => ⟨c, i - 1, [], regs, e' :: rest, bias⟩
      | .ok (regs', v) =>
        let r := runEntries dev rest regs' bias (i + 1)
        { r with results := entryRes dev e' v ++ r.results
                 entries := e' :: r.entries }

/-! ### `process_transaction`, `cancel_transaction`, the worker -/

/-- `process_transaction`: run the entry loop, fill in the response, push
the success or error completion event (when a pending-event list was given),
save the info to the debug history, and free the record — for an EVERY_TIME
record only the wrapper and response are freed, the entry array stays in
the heap (and keeps the in-place offset mutations); otherwise
`free_transaction` also frees the entry array.  Returns the updated state
and the pushed emissions. -/
def process_transaction (dev : LwisDevice) (st : ClientState)
    (t : Transaction) (hasPendingEvents : Bool) :
    ClientState × List Emission :=
  let entries := (heapFind t.info.entriesPtr st.entriesHeap).getD []
  let r := runEntries dev entries st.regs 0 0
  let resp : Response :=
    { t.resp with
      error_code := if r.error_code = 0 then t.resp.error_code else r.error_code
      completion_index := r.completion_index
      results := r.results }
  let emissions :=
    if hasPendingEvents then
      [⟨if resp.error_code = 0 then t.info.emit_success_event_id
        else t.info.emit_error_event_id, resp⟩]
    else []
  let heap' := heapSet t.info.entriesPtr r.entries st.entriesHeap
  let heap'' :=
    if t.info.trigger_event_counter = LWIS_EVENT_COUNTER_EVERY_TIME then heap'
    else heapErase t.info.entriesPtr heap'
  ({ st with
     regs := r.regs
     entriesHeap := heap''
     history := st.history ++ [t.info] }, emissions)

/-- `cancel_transaction`: build a bare response header carrying the error,
push it to the error event (when a pending-event list was given), and free
the record including its entry array. -/
def cancel_transaction (st : ClientState) (t : Transaction) (error_code : Int)
    (hasPendingEvents : Bool) : ClientState × List Emission :=
  let resp : Response :=
    { id := t.info.id, error_code := error_code, num_entries := 0
      results_size_bytes := 0, completion_index := -1, results := [] }
  let emissions :=
    if hasPendingEvents then [⟨t.info.emit_error_event_id, resp⟩] else []
  ({ st with entriesHeap := heapErase t.info.entriesPtr st.entriesHeap },
   emissions)

/-- Drain loop of `transaction_work_func` over a snapshot of the process
queue: error-flagged records are cancelled (with their stored error code),
the rest are executed. -/
def drainQueue (dev : LwisDevice) :
    List Transaction → ClientState → List Emission → ClientState × List Emission
  | [], st, acc => (st, acc)
  | t :: rest, st, acc =>
    if t.resp.error_code ≠ 0 then
      let p := cancel_transaction st t t.resp.error_code true
      drainQueue dev rest p.1 (acc ++ p.2)
    else
      let p := process_transaction dev st t true
      drainQueue dev rest p.1 (acc ++ p.2)

/-- `transaction_work_func`: drain the whole process queue, then emit the
accumulated pending events (the returned emission list). -/
def transaction_work_func (dev : LwisDevice) (st : ClientState) :
    ClientState × List Emission :=
  drainQueue dev st.transaction_process_queue
    { st with transaction_process_queue := [] } []

/-! ### Submission: validate, prepare the response, queue -/

/-- Device-wide `lwis_device_event_state_find_or_create`: a fresh event
state starts with occurrence counter 0 (collaborator contract per the
spec's event-state table interface). -/
def devEventFindOrCreate (states : List (Int × Int)) (eid : Int) :
    List (Int × Int) :=
  match alistFind eid states with
  | some _ => states
  | none => states ++ [(eid, 0)]

/-- Client-side `lwis_client_event_state_find_or_create`, keeping only the
set of known event ids. -/
def clientEventFindOrCreate (states : List Int) (eid : Int) : List Int :=
  if eid ∈ states then states else states ++ [eid]

/-- The four find-or-create calls on the emit-success and emit-error event
ids at the end of `check_transaction_param_locked`. -/
def ensureEmitEvents (st : ClientState) (info : TransactionInfo) : ClientState :=
  { st with
    dev_event_states :=
      devEventFindOrCreate
        (devEventFindOrCreate st.dev_event_states info.emit_success_event_id)
        info.emit_error_event_id
    client_event_states :=
      clientEventFindOrCreate
        (clientEventFindOrCreate st.client_event_states
          info.emit_success_event_id)
        info.emit_error_event_id }

/-- `check_transaction_param_locked`: record the trigger event's current
occurrence counter (0 when the event state is absent, -1 when no trigger
event is given), reject explicit trigger counters that are in the past
(equal counters convert the transaction to an immediate one when
`allow_counter_eq` is set), then make sure the two emit events exist in the
device-wide and client event tables (their creation is a collaborator
service; the model's tables always accept new ids).  Returns the error
code, the possibly rewritten info, and the state with any created event
states. -/
def check_transaction_param_locked (st : ClientState) (info : TransactionInfo)
    (allow_counter_eq : Bool) : Int × TransactionInfo × ClientState :=
  let info := { info with current_trigger_event_counter := -1 }
  let info :=
    if info.trigger_event_id ≠ LWIS_EVENT_ID_NONE then
      match alistFind info.trigger_event_id st.dev_event_states with
      | none => { info with current_trigger_event_counter := 0 }
      | some c => { info with current_trigger_event_counter := c }
    else info
  if info.trigger_event_id ≠ LWIS_EVENT_ID_NONE ∧
      EXPLICIT_EVENT_COUNTER info.trigger_event_counter then
    if info.trigger_event_counter = info.current_trigger_event_counter then
      if allow_counter_eq then
        let info := { info with trigger_event_id := LWIS_EVENT_ID_NONE }
        (0, info, ensureEmitEvents st info)
      else (-ENOENT, info, st)
    else if info.trigger_event_counter < info.current_trigger_event_counter then
      (-ENOENT, info, st)
    else (0, info, ensureEmitEvents st info)
  else (0, info, ensureEmitEvents st info)

/-- Modelled layout constant `sizeof(struct lwis_io_result)` (header not
under `src/`); the value is only carried through size arithmetic, never
inspected. -/
def SIZEOF_IO_RESULT : Int := 24

/-- Number of read-type entries (`read_entries` in
`prepare_response_locked`). -/
def countReadEntries : List LwisIoEntry → Int
  | [] => 0
  | .read _ _ :: rest => countReadEntries rest + 1
  | .readBatch _ _ _ :: rest => countReadEntries rest + 1
  | _ :: rest => countReadEntries rest

/-- Total payload bytes of read-type entries (`read_buf_size`);
`width8` is `native_value_bitwidth / 8`. -/
def readBufSize (width8 : Int) : List LwisIoEntry → Int
  | [] => 0
  | .read _ _ :: rest => readBufSize width8 rest + width8
  | .readBatch _ _ s :: rest => readBufSize width8 rest + (s : Int)
  | _ :: rest => readBufSize width8 rest

/-- `prepare_response_locked`: assign the client's transaction counter as
the id, scan the entries to size the result buffer, and allocate the
zeroed response (`respAllocOk` is the `kzalloc` oracle; failure is
`-ENOMEM` with no other effect). -/
def prepare_response_locked (dev : LwisDevice) (st : ClientState)
    (info : TransactionInfo) (entries : List LwisIoEntry)
    (respAllocOk : Bool) : TransactionInfo × Except Int Response :=
  let info := { info with id := st.transaction_counter }
  let read_entries := countReadEntries entries
  let read_buf_size := readBufSize (dev.native_value_bitwidth / 8) entries
  (info,
    if respAllocOk then
      .ok { id := info.id, error_code := 0, num_entries := read_entries
            results_size_bytes := read_entries * SIZEOF_IO_RESULT + read_buf_size
            completion_index := 0, results := [] }
    else .error (-ENOMEM))

/-- `queue_transaction_locked`: an immediate transaction goes to the tail
of the process queue (and the worker is signalled); an event-triggered one
goes to the tail of its event's waiting list, creating the list when absent
(`listAllocOk` is the allocation oracle for `event_list_create`; on failure
the response is freed and `-EINVAL` returned with nothing queued).  On
success the client's transaction counter is incremented. -/
def queue_transaction_locked (st : ClientState) (t : Transaction)
    (listAllocOk : Bool) : Int × ClientState :=
  if t.info.trigger_event_id = LWIS_EVENT_ID_NONE then
    (0, { st with
          transaction_process_queue := st.transaction_process_queue ++ [t]
          transaction_counter := st.transaction_counter + 1 })
  else
    match alistFind t.info.trigger_event_id st.transaction_list with
    | some l =>
      (0, { st with
            transaction_list :=
              alistSet t.info.trigger_event_id (l ++ [t]) st.transaction_list
            transaction_counter := st.transaction_counter + 1 })
    | none =>
      if listAllocOk then
        (0, { st with
              transaction_list :=
                st.transaction_list ++ [(t.info.trigger_event_id, [t])]
              transaction_counter := st.transaction_counter + 1 })
      else (-EINVAL, st)

/-- `lwis_transaction_submit_locked`: validate (with the transaction's own
`allow_counter_eq`), prepare the response, store the entry array, queue.
A failed queueing hands the entry array back to the caller (which frees
it), so the state reverts to the pre-allocation one. -/
def lwis_transaction_submit_locked (dev : LwisDevice) (st : ClientState)
    (info : TransactionInfo) (entries : List LwisIoEntry)
    (respAllocOk listAllocOk : Bool) : Int × TransactionInfo × ClientState :=
  let c := check_transaction_param_locked st info info.allow_counter_eq
  if c.1 ≠ 0 then c
  else
    let pr := prepare_response_locked dev c.2.2 c.2.1 entries respAllocOk
    match pr.2 with
    | .error cc => (cc, pr.1, c.2.2)
    | .ok resp =>
      let ptr := c.2.2.nextPtr
      let st2 := { c.2.2 with
                   entriesHeap := c.2.2.entriesHeap ++ [(ptr, entries)]
                   nextPtr := ptr + 1 }
      let t : Transaction := ⟨{ pr.1 with entriesPtr := ptr }, resp⟩
      let q := queue_transaction_locked st2 t listAllocOk
      if q.1 ≠ 0 then (q.1, pr.1, c.2.2) else (0, t.info, q.2)

/-! ### Event-trigger dispatch -/

/-- `new_repeating_transaction_iteration` (the success case; the `kzalloc`
oracles sit at the call site): the clone shares the original's info — and
through `entriesPtr` its I/O entry array — and gets a fresh zeroed response
buffer sized from the original's `results_size_bytes`, with the header
fields copied over. -/
def new_repeating_transaction_iteration (t : Transaction) : Transaction :=
  ⟨t.info, { t.resp with results := [] }⟩

/-- One pass of `lwis_transaction_event_trigger` over the waiting list of
the fired event: error-flagged records move to the process queue; records
whose trigger counter is ON_NEXT_OCCURRENCE or equals the firing counter
run inline (when allowed in this context and the device is not I2C) or
move to the process queue; EVERY_TIME records spawn a clone that runs
inline or is queued while the original stays in the list — unless clone
allocation fails, in which case the original is marked `-ENOMEM` and moved
to the process queue.  Returns the transactions remaining in the waiting
list, the updated state, and the accumulated emissions. -/
def triggerPass (dev : LwisDevice) (event_counter : Int) (allocOk : Bool) :
    List Transaction → ClientState → List Emission →
    List Transaction × ClientState × List Emission
  | [], st, acc => ([], st, acc)
  | t :: rest, st, acc =>
    if t.resp.error_code ≠ 0 then
      triggerPass dev event_counter allocOk rest
        { st with
          transaction_process_queue := st.transaction_process_queue ++ [t] }
        acc
    else if t.info.trigger_event_counter
          = LWIS_EVENT_COUNTER_ON_NEXT_OCCURRENCE ∨
        t.info.trigger_event_counter = event_counter then
      if t.info.run_in_event_context ∧ ¬dev.isI2c then
        let p := process_transaction dev st t true
        triggerPass dev event_counter allocOk rest p.1 (acc ++ p.2)
      else
        triggerPass dev event_counter allocOk rest
          { st with
            transaction_process_queue := st.transaction_process_queue ++ [t] }
          acc
    else if t.info.trigger_event_counter = LWIS_EVENT_COUNTER_EVERY_TIME then
      if allocOk then
        if t.info.run_in_event_context ∧ ¬dev.isI2c then
          let p := process_transaction dev st
            (new_repeating_transaction_iteration t) true
          let r := triggerPass dev event_counter allocOk rest p.1 (acc ++ p.2)
          (t :: r.1, r.2)
        else
          let r := triggerPass dev event_counter allocOk rest
            { st with
              transaction_process_queue := st.transaction_process_queue ++
                [new_repeating_transaction_iteration t] }
            acc
          (t :: r.1, r.2)
      else
        triggerPass dev event_counter allocOk rest
          { st with
            transaction_process_queue := st.transaction_process_queue ++
              [{ t with resp := { t.resp with error_code := -ENOMEM } }] }
          acc
    else
      let r := triggerPass dev event_counter allocOk rest st acc
      (t :: r.1, r.2)

/-- `lwis_transaction_event_trigger`: look up the fired event's waiting
list (no-op when absent or empty), run the pass, store the surviving list
back under the same event id (the list head stays in the hash even when
emptied).  The deferred worker is signalled but runs separately
(`transaction_work_func`). -/
def lwis_transaction_event_trigger (dev : LwisDevice) (st : ClientState)
    (event_id event_counter : Int) (allocOk : Bool) :
    ClientState × List Emission :=
  match alistFind event_id st.transaction_list with
  | none => (st, [])
  | some l =>
    if l = [] then (st, [])
    else
      let r := triggerPass dev event_counter allocOk l st []
      ({ r.2.1 with
         transaction_list := alistSet event_id r.1 r.2.1.transaction_list },
       r.2.2)

/-! ### Cancel, replace, flush -/

/-- Search one waiting list for the id; on the first match set its response
error code to `-ECANCELED` in place (the record is not unlinked). -/
def cancelInList (id : Int) : List Transaction → Option (List Transaction)
  | [] => none
  | t :: rest =>
    if t.info.id = id then
      some ({ t with resp := { t.resp with error_code := -ECANCELED } } :: rest)
    else
      match cancelInList id rest with
      | some rest' => some (t :: rest')
      | none => none

/-- Search all waiting lists, in table order. -/
def cancelInLists (id : Int) :
    List (Int × List Transaction) → Option (List (Int × List Transaction))
  | [] => none
  | (eid, l) :: rest =>
    match cancelInList id l with
    | some l' => some ((eid, l') :: rest)
    | none =>
      match cancelInLists id rest with
      | some rest' => some ((eid, l) :: rest')
      | none => none

/-- `cancel_waiting_transaction_locked`: mark the first waiting transaction
with this id as cancelled, else `-ENOENT`. -/
def cancel_waiting_transaction_locked (st : ClientState) (id : Int) :
    Int × ClientState :=
  match cancelInLists id st.transaction_list with
  | some tl => (0, { st with transaction_list := tl })
  | none => (-ENOENT, st)

/-- `lwis_transaction_cancel`: take the lock, mark, release. -/
def lwis_transaction_cancel (st : ClientState) (id : Int) : Int × ClientState :=
  cancel_waiting_transaction_locked st id

/-- `lwis_transaction_replace_locked`: validate with counter-equality
conversion disabled, cancel the waiting transaction carrying the submitted
id (must exist), then prepare and queue the replacement like submit. -/
def lwis_transaction_replace_locked (dev : LwisDevice) (st : ClientState)
    (info : TransactionInfo) (entries : List LwisIoEntry)
    (respAllocOk listAllocOk : Bool) : Int × TransactionInfo × ClientState :=
  let c := check_transaction_param_locked st info false
  if c.1 ≠ 0 then c
  else
    let cw := cancel_waiting_transaction_locked c.2.2 c.2.1.id
    if cw.1 ≠ 0 then (cw.1, c.2.1, cw.2)
    else
      let pr := prepare_response_locked dev cw.2 c.2.1 entries respAllocOk
      match pr.2 with
      | .error cc => (cc, pr.1, cw.2)
      | .ok resp =>
        let ptr := cw.2.nextPtr
        let st3 := { cw.2 with
                     entriesHeap := cw.2.entriesHeap ++ [(ptr, entries)]
                     nextPtr := ptr + 1 }
        let t : Transaction := ⟨{ pr.1 with entriesPtr := ptr }, resp⟩
        let q := queue_transaction_locked st3 t listAllocOk
        if q.1 ≠ 0 then (q.1, pr.1, cw.2) else (0, t.info, q.2)

/-- Phase 1 of `lwis_transaction_client_flush`: walk the hash of waiting
lists, skip the reserved client-cleanup list, cancel every waiting
transaction with `-ECANCELED` and a NULL pending-event list (so nothing is
emitted for them), and delete each drained list from the table. -/
def flushLists : List (Int × List Transaction) → ClientState →
    List (Int × List Transaction) × ClientState
  | [], st => ([], st)
  | (eid, l) :: rest, st =>
    if eid = LWIS_EVENT_ID_CLIENT_CLEANUP then
      let r := flushLists rest st
      ((eid, l) :: r.1, r.2)
    else
      flushLists rest
        (l.foldl (fun s t => (cancel_transaction s t (-ECANCELED) false).1) st)

/-- `lwis_transaction_client_flush`: cancel all waiting transactions
(silently, NULL pending-event list), drain the worker (which emits the
normal completion or cancellation event for each record already in the
process queue), then cancel anything still left in the queue — again with
no emission.  Returns the final state and the events the drained worker
emitted. -/
def lwis_transaction_client_flush (dev : LwisDevice) (st : ClientState) :
    ClientState × List Emission :=
  let f := flushLists st.transaction_list st
  let w := transaction_work_func dev { f.2 with transaction_list := f.1 }
  let st4 := w.1.transaction_process_queue.foldl
    (fun s t => (cancel_transaction s t (-ECANCELED) false).1)
    { w.1 with transaction_process_queue := [] }
  (st4, w.2)

/-! ### Concrete fixtures used by the closed theorems -/

/-- A well-behaved register backend over the abstract register file:
writes store, reads return the stored value, modify is read-modify-write
under the mask, polls succeed exactly when the stored value matches under
the mask. -/
def wellBehavedIo : RegIo := fun regs e =>
  match e with
  | .write b o v => .ok (fun p => if p = (b, o) then v else regs p, 0)
  | .read b o => .ok (regs, regs (b, o))
  | .writeBatch _ _ _ => .ok (regs, 0)
  | .readBatch _ _ _ => .ok (regs, 0)
  | .modify b o v m =>
    .ok (fun p => if p = (b, o)
          then regs (b, o) - (regs (b, o) &&& m) + (v &&& m) else regs p, 0)
  | .setBias _ => .ok (regs, 0)
  | .poll b o v m _ =>
    if regs (b, o) &&& m = v &&& m then .ok (regs, regs (b, o))
    else .error (-ETIMEDOUT)

/-- A 32-bit non-I2C enabled device over the well-behaved backend. -/
def testDev : LwisDevice :=
  { regIo := wellBehavedIo, native_value_bitwidth := 32
    isI2c := false, enabled := true }

/-- A freshly initialized client (`lwis_transaction_init`) with no device
event states and an all-zero register file. -/
def emptyState : ClientState :=
  { transaction_process_queue := []
    transaction_list := []
    transaction_counter := 0
    dev_event_states := []
    client_event_states := []
    entriesHeap := []
    nextPtr := 0
    regs := fun _ => 0
    history := [] }

/-- An immediate-trigger transaction info with emit events 100/101. -/
def immediateInfo : TransactionInfo :=
  { id := 0, trigger_event_id := LWIS_EVENT_ID_NONE
    trigger_event_counter := LWIS_EVENT_COUNTER_ON_NEXT_OCCURRENCE
    current_trigger_event_counter := -1, entriesPtr := 0
    emit_success_event_id := 100, emit_error_event_id := 101
    allow_counter_eq := false, run_in_event_context := false }

/-- Poll trace where the register always reads 0, the clock advances one
millisecond per attempt, and the poll started at time 0. -/
def pollTraceZero : PollTrace :=
  { readResult := fun _ => .ok 0, timeAfter := fun i => i + 1, start := 0 }

/-- Poll trace where every read fails with the backend error -5. -/
def pollTraceErr : PollTrace :=
  { readResult := fun _ => .error (-5), timeAfter := fun i => i + 1, start := 0 }

/-- Whether an entry is a SetBias entry. -/
def isSetBias : LwisIoEntry → Bool
  | .setBias _ => true
  | _ => false

/-- Outcome of dispatching one entry (with the current bias) to the device
backend: `some c` when the backend fails with `c`, `none` otherwise (BIAS
entries never touch the backend). -/
def stepErr (dev : LwisDevice) (e : LwisIoEntry) (regs : Regs) (bias : Nat) :
    Option Int :=
  match lwis_entry_bias e bias with
  | .setBias _ => none
  | e' =>
    match dev.regIo regs e' with
    | .error c => some c
    | .ok _ => none

/-- The bias in effect for the entry at index `j`: the value of the most
recent SetBias entry strictly before `j`, or the initial bias `b`
(0 at the start of every execution pass). -/
def lastBiasFrom (b : Nat) (entries : List LwisIoEntry) (j : Nat) : Nat :=
  (entries.take j).foldl
    (fun acc e => match e with | .setBias b' => b' | _ => acc) b

/-- The entry list as left in memory by one execution pass that applied the
running bias to each entry in place. -/
def biasApplied (b : Nat) : List LwisIoEntry → List LwisIoEntry
  | [] => []
  | e :: rest =>
    lwis_entry_bias e b ::
      biasApplied (match e with | .setBias b' => b' | _ => b) rest

/-- The all-zero register file. -/
def regs0 : Regs := fun _ => 0

/-- Entry list of the spec's round-trip example:
[Write(reg=0x10, val=5), Read(reg=0x10)]. -/
def c3entries : List LwisIoEntry := [.write 0 16 5, .read 0 16]

/-- Submitting the round-trip transaction as an immediate one. -/
def c3submit : Int × TransactionInfo × ClientState :=
  lwis_transaction_submit_locked testDev emptyState immediateInfo c3entries
    true true

/-- The worker pass that executes the queued round-trip transaction. -/
def c3run : ClientState × List Emission :=
  transaction_work_func testDev c3submit.2.2

/-- Entry list whose second entry fails against `testDev`
(the poll never matches over an all-zero register file). -/
def c3errEntries : List LwisIoEntry := [.write 0 16 5, .poll 0 0 3 255 10]

/-- An EVERY_TIME transaction on trigger event 50 that is allowed to run in
event context, with a SetBias entry ahead of a write. -/
def c7info : TransactionInfo :=
  { immediateInfo with
    trigger_event_id := 50
    trigger_event_counter := LWIS_EVENT_COUNTER_EVERY_TIME
    run_in_event_context := true }

/-- Entry list [SetBias 5, Write(reg=0x10, val=1)]. -/
def c7entries : List LwisIoEntry := [.setBias 5, .write 0 16 1]

/-- Client state holding the waiting EVERY_TIME transaction. -/
def c7st : ClientState :=
  (lwis_transaction_submit_locked testDev emptyState c7info c7entries
    true true).2.2

/-- First firing of event 50. -/
def c7fire1 : ClientState × List Emission :=
  lwis_transaction_event_trigger testDev c7st 50 1 true

/-- Second firing of event 50. -/
def c7fire2 : ClientState × List Emission :=
  lwis_transaction_event_trigger testDev c7fire1.1 50 1 true

/-- A waiting transaction the dispatch pass must leave alone: error-free,
explicit (non-sentinel) trigger counter, and that counter differs from the
firing event's occurrence count. -/
def untouchedBy (event_counter : Int) (t : Transaction) : Bool :=
  t.resp.error_code == 0 &&
    EXPLICIT_EVENT_COUNTER t.info.trigger_event_counter &&
    t.info.trigger_event_counter != event_counter

/-- A waiting transaction with explicit trigger counter 7 on event 50. -/
def c10t : Transaction :=
  ⟨{ immediateInfo with trigger_event_id := 50, trigger_event_counter := 7 },
   { id := 0, error_code := 0, num_entries := 0, results_size_bytes := 0
     completion_index := 0, results := [] }⟩

/-- Client state with `c10t` waiting on event 50. -/
def c10st : ClientState :=
  { emptyState with
    transaction_list := [(50, [c10t])]
    entriesHeap := [(0, [])] }

/-- Client state whose device event table holds event 50 with occurrence
counter 5. -/
def c1st : ClientState := { emptyState with dev_event_states := [(50, 5)] }

/-- Transaction info requiring event 50 at (stale) counter 3. -/
def c1infoLt : TransactionInfo :=
  { immediateInfo with trigger_event_id := 50, trigger_event_counter := 3 }

/-- Transaction info requiring event 50 at the current counter 5, with
counter-equality conversion allowed. -/
def c1infoEq : TransactionInfo :=
  { immediateInfo with
    trigger_event_id := 50
    trigger_event_counter := 5
    allow_counter_eq := true }

/-- One submission request: the info, its entry list, and the two
allocation oracles for the response and the event list. -/
def SubmitReq : Type := TransactionInfo × List LwisIoEntry × Bool × Bool

/-- Run a sequence of submissions, collecting the ids assigned to the
successful ones (the id each caller reads back from its info after
`prepare_response_locked`). -/
def submitSeq (dev : LwisDevice) : ClientState → List SubmitReq → List Int
  | _, [] => []
  | st, r :: rest =>
    let s := lwis_transaction_submit_locked dev st r.1 r.2.1 r.2.2.1 r.2.2.2
    if s.1 = 0 then s.2.1.id :: submitSeq dev s.2.2 rest
    else submitSeq dev s.2.2 rest

/-- Two immediate submissions in a row. -/
def c9reqs : List SubmitReq :=
  [(immediateInfo, [], true, true), (immediateInfo, [], true, true)]

/-- Fire the same event N times in a row, accumulating emissions. -/
def fireN (dev : LwisDevice) (E ec : Int) : Nat → ClientState →
    ClientState × List Emission
  | 0, st => (st, [])
  | n + 1, st =>
    let r := fireN dev E ec n st
    let r2 := lwis_transaction_event_trigger dev r.1 E ec true
    (r2.1, r.2 ++ r2.2)

/-- The waiting EVERY_TIME transaction as stored in `c7st`. -/
def c2t : Transaction :=
  ⟨{ c7info with current_trigger_event_counter := 0, entriesPtr := 0 },
   { id := 0, error_code := 0, num_entries := 0, results_size_bytes := 0
     completion_index := 0, results := [] }⟩

/-- Client state with the waiting id-0 transaction and event 50 at
occurrence counter 5. -/
def c8st : ClientState := { c10st with dev_event_states := [(50, 5)] }

/-- Replacement info: trigger event 50 at the current counter 5 with
`allow_counter_eq` set, reusing waiting id 0. -/
def c8info : TransactionInfo :=
  { immediateInfo with
    trigger_event_id := 50
    trigger_event_counter := 5
    allow_counter_eq := true }

/-! ## Theorems -/

lemma runEntries_nil (dev : LwisDevice) (regs : Regs) (bias : Nat) (i : Int) :
    runEntries dev [] regs bias i = ⟨0, i - 1, [], regs, [], bias⟩ := rfl

lemma runEntries_cons_setBias (dev : LwisDevice) (b : Nat)
    (rest : List LwisIoEntry) (regs : Regs) (bias : Nat) (i : Int) :
    runEntries dev (.setBias b :: rest) regs bias i =
      { runEntries dev rest regs b (i + 1) with
        entries := .setBias b :: (runEntries dev rest regs b (i + 1)).entries } :=
  rfl

lemma runEntries_cons_io (dev : LwisDevice) (e : LwisIoEntry) (bias : Nat)
    (hsb : isSetBias (lwis_entry_bias e bias) = false)
    (rest : List LwisIoEntry) (regs : Regs) (i : Int) :
    runEntries dev (e :: rest) regs bias i =
      (match dev.regIo regs (lwis_entry_bias e bias) with
       | .error c => ⟨c, i - 1, [], regs, lwis_entry_bias e bias :: rest, bias⟩
       | .ok (regs', v) =>
         { runEntries dev rest regs' bias (i + 1) with
           results := entryRes dev (lwis_entry_bias e bias) v ++
             (runEntries dev rest regs' bias (i + 1)).results
           entries := lwis_entry_bias e bias ::
             (runEntries dev rest regs' bias (i + 1)).entries }) := by
  cases e <;> first
    | rfl
    | simp [isSetBias, lwis_entry_bias] at hsb

lemma stepErr_io (dev : LwisDevice) (e : LwisIoEntry) (bias : Nat)
    (hsb : isSetBias (lwis_entry_bias e bias) = false) (regs : Regs) :
    stepErr dev e regs bias =
      (match dev.regIo regs (lwis_entry_bias e bias) with
       | .error c => some c
       | .ok _ => none) := by
  cases e <;> first
    | rfl
    | simp [isSetBias, lwis_entry_bias] at hsb

lemma eq_setBias_of_isSetBias (e : LwisIoEntry) (bias : Nat)
    (h : isSetBias (lwis_entry_bias e bias) = true) :
    ∃ b, e = .setBias b := by
  cases e <;> simp [isSetBias, lwis_entry_bias] at h ⊢

lemma runEntries_ok_facts (dev : LwisDevice)
    (hdev : ∀ regs e c, dev.regIo regs e = .error c → c ≠ 0) :
    ∀ (entries : List LwisIoEntry) (regs : Regs) (bias : Nat) (i : Int),
      (runEntries dev entries regs bias i).error_code = 0 →
      (runEntries dev entries regs bias i).completion_index
          = i + entries.length - 1 ∧
      (runEntries dev entries regs bias i).entries = biasApplied bias entries := by
  intro entries
  induction entries with
  | nil =>
    intro regs bias i _
    simp [runEntries_nil, biasApplied]
  | cons e rest ih =>
    intro regs bias i h
    cases hsb : isSetBias (lwis_entry_bias e bias) with
    | true =>
      obtain ⟨b, rfl⟩ := eq_setBias_of_isSetBias e bias hsb
      rw [runEntries_cons_setBias] at h ⊢
      dsimp only at h ⊢
      obtain ⟨h1, h2⟩ := ih regs b (i + 1) h
      refine ⟨?_, ?_⟩
      · rw [h1]
        simp only [List.length_cons]
        push_cast
        ring
      · rw [h2]
        simp [biasApplied, lwis_entry_bias]
    | false =>
      rw [runEntries_cons_io dev e bias hsb] at h ⊢
      cases hio : dev.regIo regs (lwis_entry_bias e bias) with
      | error c =>
        rw [hio] at h
        dsimp only at h
        exact absurd h (hdev regs _ c hio)
      | ok p =>
        obtain ⟨regs', v⟩ := p
        rw [hio] at h
        dsimp only at h ⊢
        obtain ⟨h1, h2⟩ := ih regs' bias (i + 1) h
        refine ⟨?_, ?_⟩
        · rw [h1]
          simp only [List.length_cons]
          push_cast
          ring
        · rw [h2]
          cases e <;> simp [biasApplied, isSetBias, lwis_entry_bias] at hsb ⊢

lemma runEntries_err_decomp (dev : LwisDevice) :
    ∀ (entries : List LwisIoEntry) (regs : Regs) (bias : Nat) (i : Int),
      (runEntries dev entries regs bias i).error_code ≠ 0 →
      ∃ k ek, entries.get? k = some ek ∧
        (runEntries dev (entries.take k) regs bias i).error_code = 0 ∧
        (runEntries dev entries regs bias i).completion_index = i + k - 1 ∧
        stepErr dev ek (runEntries dev (entries.take k) regs bias i).regs
            (runEntries dev (entries.take k) regs bias i).bias
          = some (runEntries dev entries regs bias i).error_code ∧
        (runEntries dev entries regs bias i).regs
          = (runEntries dev (entries.take k) regs bias i).regs ∧
        (runEntries dev entries regs bias i).results
          = (runEntries dev (entries.take k) regs bias i).results := by
  intro entries
  induction entries with
  | nil =>
    intro regs bias i h
    simp [runEntries_nil] at h
  | cons e rest ih =>
    intro regs bias i h
    cases hsb : isSetBias (lwis_entry_bias e bias) with
    | true =>
      obtain ⟨b, rfl⟩ := eq_setBias_of_isSetBias e bias hsb
      rw [runEntries_cons_setBias] at h
      dsimp only at h
      obtain ⟨k, ek, hget, h0, hci, hstep, hregs, hres⟩ := ih regs b (i + 1) h
      refine ⟨k + 1, ek, by simpa using hget, ?_, ?_, ?_, ?_, ?_⟩
      · rw [List.take_succ_cons, runEntries_cons_setBias]
        dsimp only
        exact h0
      · rw [runEntries_cons_setBias]
        dsimp only
        rw [hci]
        push_cast
        ring
      · rw [List.take_succ_cons, runEntries_cons_setBias,
          runEntries_cons_setBias]
        dsimp only
        exact hstep
      · rw [List.take_succ_cons, runEntries_cons_setBias,
          runEntries_cons_setBias]
        dsimp only
        exact hregs
      · rw [List.take_succ_cons, runEntries_cons_setBias,
          runEntries_cons_setBias]
        dsimp only
        exact hres
    | false =>
      rw [runEntries_cons_io dev e bias hsb] at h
      cases hio : dev.regIo regs (lwis_entry_bias e bias) with
      | error c =>
        rw [hio] at h
        dsimp only at h
        refine ⟨0, e, rfl, ?_, ?_, ?_, ?_, ?_⟩
        · rw [List.take_zero, runEntries_nil]
        · rw [runEntries_cons_io dev e bias hsb, hio]
          dsimp only
          push_cast
          ring
        · rw [List.take_zero, runEntries_nil]
          dsimp only
          rw [stepErr_io dev e bias hsb, hio,
            runEntries_cons_io dev e bias hsb, hio]
        · rw [List.take_zero, runEntries_nil, runEntries_cons_io dev e bias hsb,
            hio]
        · rw [List.take_zero, runEntries_nil, runEntries_cons_io dev e bias hsb,
            hio]
      | ok p =>
        obtain ⟨regs', v⟩ := p
        rw [hio] at h
        dsimp only at h
        obtain ⟨k, ek, hget, h0, hci, hstep, hregs, hres⟩ :=
          ih regs' bias (i + 1) h
        refine ⟨k + 1, ek, by simpa using hget, ?_, ?_, ?_, ?_, ?_⟩
        · rw [List.take_succ_cons, runEntries_cons_io dev e bias hsb, hio]
          dsimp only
          exact h0
        · rw [runEntries_cons_io dev e bias hsb, hio]
          dsimp only
          rw [hci]
          push_cast
          ring
        · rw [List.take_succ_cons, runEntries_cons_io dev e bias hsb, hio,
            runEntries_cons_io dev e bias hsb, hio]
          dsimp only
          exact hstep
        · rw [List.take_succ_cons, runEntries_cons_io dev e bias hsb, hio,
            runEntries_cons_io dev e bias hsb, hio]
          dsimp only
          exact hregs
        · rw [List.take_succ_cons, runEntries_cons_io dev e bias hsb, hio,
            runEntries_cons_io dev e bias hsb, hio]
          dsimp only
          rw [hres]

lemma testDev_errors_nonzero :
    ∀ (regs : Regs) (e : LwisIoEntry) (c : Int),
      testDev.regIo regs e = .error c → c ≠ 0 := by
  intro regs e c h
  cases e <;> simp only [testDev, wellBehavedIo] at h <;>
    first
      | exact Except.noConfusion h
      | (split at h <;>
          first
            | exact Except.noConfusion h
            | (simp only [Except.error.injEq] at h
               rw [← h]
               decide))

/-- C3: execution of an entry sequence stops at the first failing entry,
recording its error code, with `completion_index` equal to the index of the
last successfully completed entry (-1 when the very first entry fails, and
`n - 1` on full success); concretely, the immediate transaction
[Write(reg=0x10, val=5), Read(reg=0x10)] against the well-behaved backend
completes with error 0, completion index 1 and read result 5. -/
theorem C3_stop_at_first_error_roundtrip (dev : LwisDevice)
    (hdev : ∀ regs e c, dev.regIo regs e = .error c → c ≠ 0)
    (entries : List LwisIoEntry) (regs : Regs) :
    ((runEntries dev entries regs 0 0).error_code = 0 →
      (runEntries dev entries regs 0 0).completion_index
        = (entries.length : Int) - 1) ∧
    ((runEntries dev entries regs 0 0).error_code ≠ 0 →
      ∃ k ek, entries.get? k = some ek ∧
        (runEntries dev (entries.take k) regs 0 0).error_code = 0 ∧
        (runEntries dev entries regs 0 0).completion_index = (k : Int) - 1 ∧
        stepErr dev ek (runEntries dev (entries.take k) regs 0 0).regs
            (runEntries dev (entries.take k) regs 0 0).bias
          = some (runEntries dev entries regs 0 0).error_code ∧
        (runEntries dev entries regs 0 0).regs
          = (runEntries dev (entries.take k) regs 0 0).regs ∧
        (runEntries dev entries regs 0 0).results
          = (runEntries dev (entries.take k) regs 0 0).results) ∧
    (c3submit.1 = 0 ∧
      c3run.2 = [⟨100, ⟨0, 0, 1, 28, 1, [⟨0, 16, 4, 5⟩]⟩⟩]) := by
  refine ⟨?_, ?_, by decide⟩
  · intro h
    have h1 := (runEntries_ok_facts dev hdev entries regs 0 0 h).1
    simpa using h1
  · intro h
    have h1 := runEntries_err_decomp dev entries regs 0 0 h
    simpa using h1

/-- Witness for C3: over the well-behaved device, the failing entry list
stops with the error decomposition and the successful round-trip entry list
completes with index 1. -/
theorem C3_stop_at_first_error_roundtrip_witness :
    ((runEntries testDev c3entries regs0 0 0).completion_index
        = (c3entries.length : Int) - 1) ∧
    (∃ k ek, c3errEntries.get? k = some ek ∧
      (runEntries testDev (c3errEntries.take k) regs0 0 0).error_code = 0 ∧
      (runEntries testDev c3errEntries regs0 0 0).completion_index
        = (k : Int) - 1 ∧
      stepErr testDev ek
          (runEntries testDev (c3errEntries.take k) regs0 0 0).regs
          (runEntries testDev (c3errEntries.take k) regs0 0 0).bias
        = some (runEntries testDev c3errEntries regs0 0 0).error_code ∧
      (runEntries testDev c3errEntries regs0 0 0).regs
        = (runEntries testDev (c3errEntries.take k) regs0 0 0).regs ∧
      (runEntries testDev c3errEntries regs0 0 0).results
        = (runEntries testDev (c3errEntries.take k) regs0 0 0).results) := by
  constructor
  · exact (C3_stop_at_first_error_roundtrip testDev testDev_errors_nonzero
      c3entries regs0).1 (by decide)
  · exact (C3_stop_at_first_error_roundtrip testDev testDev_errors_nonzero
      c3errEntries regs0).2.1 (by decide)

lemma entryOffset_bias (e : LwisIoEntry) (b : Nat) :
    entryOffset (lwis_entry_bias e b)
      = entryOffset e + (if biasedType e then b else 0) := by
  cases e <;> simp [entryOffset, lwis_entry_bias, biasedType]

lemma biasApplied_get (entries : List LwisIoEntry) :
    ∀ (b : Nat) (j : Nat) (e : LwisIoEntry), entries.get? j = some e →
      (biasApplied b entries).get? j
        = some (lwis_entry_bias e (lastBiasFrom b entries j)) := by
  induction entries with
  | nil => intro b j e h; simp at h
  | cons e0 rest ih =>
    intro b j e h
    cases j with
    | zero =>
      simp only [List.get?] at h
      obtain rfl : e0 = e := by injection h
      simp [biasApplied, lastBiasFrom]
    | succ j =>
      simp only [List.get?] at h
      have := ih (match e0 with | .setBias b' => b' | _ => b) j e h
      simpa [biasApplied, lastBiasFrom, List.take_succ_cons] using this

/-- C7 (amended): within one execution pass the bias starts at zero and
every entry is biased, in place, by the most recent preceding SetBias value
of that same pass — the entry's effective offset is its stored offset plus
that bias.  (Because the mutation is in place and an EVERY_TIME lineage
shares one entry list, biased offsets do persist into later firings; see
the counterexample theorem.) -/
theorem C7_bias_within_pass (dev : LwisDevice)
    (hdev : ∀ regs e c, dev.regIo regs e = .error c → c ≠ 0)
    (entries : List LwisIoEntry) (regs : Regs)
    (h : (runEntries dev entries regs 0 0).error_code = 0) :
    ∀ j e, entries.get? j = some e →
      (runEntries dev entries regs 0 0).entries.get? j
          = some (lwis_entry_bias e (lastBiasFrom 0 entries j)) ∧
      ∃ e', (runEntries dev entries regs 0 0).entries.get? j = some e' ∧
        entryOffset e' = entryOffset e +
          (if biasedType e then lastBiasFrom 0 entries j else 0) := by
  intro j e hj
  have hent := (runEntries_ok_facts dev hdev entries regs 0 0 h).2
  rw [hent, biasApplied_get entries 0 j e hj]
  exact ⟨rfl, _, rfl, entryOffset_bias e _⟩

/-- Witness for C7's amended theorem at the counterexample entry list: the
write entry is biased by the preceding SetBias 5 within the pass. -/
theorem C7_bias_within_pass_witness :
    (runEntries testDev c7entries regs0 0 0).entries.get? 1
        = some (lwis_entry_bias (.write 0 16 1) (lastBiasFrom 0 c7entries 1)) ∧
    ∃ e', (runEntries testDev c7entries regs0 0 0).entries.get? 1 = some e' ∧
      entryOffset e' = entryOffset (LwisIoEntry.write 0 16 1) +
        (if biasedType (.write 0 16 1) then lastBiasFrom 0 c7entries 1
         else 0) :=
  C7_bias_within_pass testDev testDev_errors_nonzero c7entries regs0
    (by decide) 1 (.write 0 16 1) (by decide)

/-- Counterexample for C7 as stated: the first firing of the EVERY_TIME
transaction writes register 0x15 (0x10 + bias 5), but the in-place offset
mutation survives in the shared entry list, so the second firing writes
register 0x1A (0x15 + 5) instead of 0x15 again — the bias applied in the
first pass persisted into the second firing. -/
theorem C7_bias_persists_counterexample :
    c7fire1.1.regs (0, 21) = 1 ∧
    c7fire1.1.regs (0, 26) = 0 ∧
    c7fire2.1.regs (0, 26) = 1 ∧
    heapFind 0 c7fire2.1.entriesHeap = some [.setBias 5, .write 0 26 1] := by
  decide

lemma alistFind_alistSet_self {α : Type} (k : Int) (w : α) :
    ∀ (L : List (Int × α)) (v : α), alistFind k L = some v →
      alistFind k (alistSet k w L) = some w := by
  intro L
  induction L with
  | nil => intro v h; simp [alistFind] at h
  | cons p rest ih =>
    intro v h
    obtain ⟨k', v'⟩ := p
    by_cases hk : k' = k
    · subst hk
      simp [alistFind, alistSet]
    · simp only [alistFind, alistSet, if_neg hk] at h ⊢
      exact ih v h

lemma alistSet_self {α : Type} (k : Int) :
    ∀ (L : List (Int × α)) (v : α), alistFind k L = some v →
      alistSet k v L = L := by
  intro L
  induction L with
  | nil => intro v h; simp [alistFind] at h
  | cons p rest ih =>
    intro v h
    obtain ⟨k', v'⟩ := p
    by_cases hk : k' = k
    · subst hk
      simp only [alistFind, if_pos] at h
      simp only [Option.some.injEq] at h
      simp [alistSet, h]
    · simp only [alistFind, if_neg hk] at h
      simp only [alistSet, if_neg hk, List.cons.injEq, true_and]
      exact ih v h

lemma process_transaction_queue_eq (dev : LwisDevice) (st : ClientState)
    (t : Transaction) (b : Bool) :
    (process_transaction dev st t b).1.transaction_process_queue
      = st.transaction_process_queue := rfl

lemma process_transaction_tlist_eq (dev : LwisDevice) (st : ClientState)
    (t : Transaction) (b : Bool) :
    (process_transaction dev st t b).1.transaction_list
      = st.transaction_list := rfl

lemma untouchedBy_false_of_err {t : Transaction} (ec : Int)
    (h : t.resp.error_code ≠ 0) : untouchedBy ec t = false := by
  have hb : (t.resp.error_code == 0) = false := beq_eq_false_iff_ne.mpr h
  simp [untouchedBy, hb]

lemma untouchedBy_false_of_match {t : Transaction} (ec : Int)
    (h : t.info.trigger_event_counter = LWIS_EVENT_COUNTER_ON_NEXT_OCCURRENCE ∨
      t.info.trigger_event_counter = ec) : untouchedBy ec t = false := by
  rcases h with h | h <;>
    simp [untouchedBy, EXPLICIT_EVENT_COUNTER, h]

lemma untouchedBy_false_of_every {t : Transaction} (ec : Int)
    (h : t.info.trigger_event_counter = LWIS_EVENT_COUNTER_EVERY_TIME) :
    untouchedBy ec t = false := by
  simp [untouchedBy, EXPLICIT_EVENT_COUNTER, h]

lemma untouchedBy_true_of_else {t : Transaction} (ec : Int)
    (h1 : ¬t.resp.error_code ≠ 0)
    (h2 : ¬(t.info.trigger_event_counter
        = LWIS_EVENT_COUNTER_ON_NEXT_OCCURRENCE ∨
      t.info.trigger_event_counter = ec))
    (h4 : ¬t.info.trigger_event_counter = LWIS_EVENT_COUNTER_EVERY_TIME) :
    untouchedBy ec t = true := by
  push_neg at h1 h2
  simp [untouchedBy, EXPLICIT_EVENT_COUNTER, h1, h2.1, h2.2, h4]

lemma triggerPass_frame (dev : LwisDevice) (ec : Int) (aOk : Bool) :
    ∀ (l : List Transaction) (st : ClientState) (acc : List Emission),
      (triggerPass dev ec aOk l st acc).2.1.transaction_list
          = st.transaction_list ∧
      (triggerPass dev ec aOk l st acc).1.filter (untouchedBy ec)
          = l.filter (untouchedBy ec) ∧
      ∃ Δ, (triggerPass dev ec aOk l st acc).2.1.transaction_process_queue
            = st.transaction_process_queue ++ Δ ∧
        ∀ x ∈ Δ, untouchedBy ec x = false := by
  intro l
  induction l with
  | nil =>
    intro st acc
    exact ⟨rfl, rfl, [], by simp [triggerPass], by simp⟩
  | cons t rest ih =>
    intro st acc
    rw [triggerPass]
    by_cases h1 : t.resp.error_code ≠ 0
    · rw [if_pos h1]
      have hu := untouchedBy_false_of_err ec h1
      obtain ⟨ha, hb, Δ, hq, hΔ⟩ := ih
        { st with
          transaction_process_queue := st.transaction_process_queue ++ [t] }
        acc
      refine ⟨ha, by rw [hb, List.filter_cons_of_neg (by simp [hu])],
        t :: Δ, ?_, ?_⟩
      · rw [hq]
        simp
      · intro x hx
        rcases List.mem_cons.mp hx with rfl | hx
        · exact hu
        · exact hΔ x hx
    · rw [if_neg h1]
      by_cases h2 : t.info.trigger_event_counter
            = LWIS_EVENT_COUNTER_ON_NEXT_OCCURRENCE ∨
          t.info.trigger_event_counter = ec
      · rw [if_pos h2]
        have hu := untouchedBy_false_of_match ec h2
        by_cases h3 : t.info.run_in_event_context = true ∧ ¬dev.isI2c = true
        · rw [if_pos h3]
          obtain ⟨ha, hb, Δ, hq, hΔ⟩ := ih
            (process_transaction dev st t true).1
            (acc ++ (process_transaction dev st t true).2)
          refine ⟨ha.trans (process_transaction_tlist_eq dev st t true),
            by rw [hb, List.filter_cons_of_neg (by simp [hu])], Δ, ?_, hΔ⟩
          rw [hq, process_transaction_queue_eq]
        · rw [if_neg h3]
          obtain ⟨ha, hb, Δ, hq, hΔ⟩ := ih
            { st with
              transaction_process_queue :=
                st.transaction_process_queue ++ [t] }
            acc
          refine ⟨ha, by rw [hb, List.filter_cons_of_neg (by simp [hu])],
            t :: Δ, ?_, ?_⟩
          · rw [hq]
            simp
          · intro x hx
            rcases List.mem_cons.mp hx with rfl | hx
            · exact hu
            · exact hΔ x hx
      · rw [if_neg h2]
        by_cases h4 : t.info.trigger_event_counter
            = LWIS_EVENT_COUNTER_EVERY_TIME
        · rw [if_pos h4]
          have hu := untouchedBy_false_of_every ec h4
          by_cases h5 : aOk = true
          · rw [if_pos h5]
            by_cases h3 : t.info.run_in_event_context = true ∧
                ¬dev.isI2c = true
            · rw [if_pos h3]
              obtain ⟨ha, hb, Δ, hq, hΔ⟩ := ih
                (process_transaction dev st
                  (new_repeating_transaction_iteration t) true).1
                (acc ++ (process_transaction dev st
                  (new_repeating_transaction_iteration t) true).2)
              refine ⟨ha.trans (process_transaction_tlist_eq dev st _ true),
                ?_, Δ, ?_, hΔ⟩
              · dsimp only
                rw [List.filter_cons_of_neg (by simp [hu]), hb,
                  List.filter_cons_of_neg (by simp [hu])]
              · dsimp only
                rw [hq, process_transaction_queue_eq]
            · rw [if_neg h3]
              obtain ⟨ha, hb, Δ, hq, hΔ⟩ := ih
                { st with
                  transaction_process_queue :=
                    st.transaction_process_queue ++
                      [new_repeating_transaction_iteration t] }
                acc
              have hcu : untouchedBy ec (new_repeating_transaction_iteration t)
                  = false :=
                untouchedBy_false_of_every ec h4
              refine ⟨ha, ?_, new_repeating_transaction_iteration t :: Δ,
                ?_, ?_⟩
              · dsimp only
                rw [List.filter_cons_of_neg (by simp [hu]), hb,
                  List.filter_cons_of_neg (by simp [hu])]
              · dsimp only
                rw [hq]
                simp
              · intro x hx
                rcases List.mem_cons.mp hx with rfl | hx
                · exact hcu
                · exact hΔ x hx
          · rw [if_neg h5]
            obtain ⟨ha, hb, Δ, hq, hΔ⟩ := ih
              { st with
                transaction_process_queue :=
                  st.transaction_process_queue ++
                    [{ t with resp := { t.resp with error_code := -ENOMEM } }] }
              acc
            have hcu : untouchedBy ec
                { t with resp := { t.resp with error_code := -ENOMEM } }
                = false :=
              untouchedBy_false_of_err ec (by simp; decide)
            refine ⟨ha, by rw [hb, List.filter_cons_of_neg (by simp [hu])],
              { t with resp := { t.resp with error_code := -ENOMEM } } :: Δ,
              ?_, ?_⟩
            · rw [hq]
              simp
            · intro x hx
              rcases List.mem_cons.mp hx with rfl | hx
              · exact hcu
              · exact hΔ x hx
        · rw [if_neg h4]
          have hu := untouchedBy_true_of_else ec h1 h2 h4
          obtain ⟨ha, hb, Δ, hq, hΔ⟩ := ih st acc
          exact ⟨ha, by
              dsimp only
              rw [List.filter_cons_of_pos (by simp [hu]),
                List.filter_cons_of_pos (by simp [hu]), hb],
            Δ, hq, hΔ⟩

lemma triggerPass_skip (dev : LwisDevice) (ec : Int) (aOk : Bool) :
    ∀ (l : List Transaction) (st : ClientState) (acc : List Emission),
      (∀ t ∈ l, untouchedBy ec t = true) →
      triggerPass dev ec aOk l st acc = (l, st, acc) := by
  intro l
  induction l with
  | nil => intro st acc _; rfl
  | cons t rest ih =>
    intro st acc hall
    have ht := hall t (List.mem_cons_self t rest)
    have h1 : ¬t.resp.error_code ≠ 0 := by
      intro h
      rw [untouchedBy_false_of_err ec h] at ht
      exact Bool.false_ne_true ht
    have h2 : ¬(t.info.trigger_event_counter
          = LWIS_EVENT_COUNTER_ON_NEXT_OCCURRENCE ∨
        t.info.trigger_event_counter = ec) := by
      intro h
      rw [untouchedBy_false_of_match ec h] at ht
      exact Bool.false_ne_true ht
    have h4 : ¬t.info.trigger_event_counter
        = LWIS_EVENT_COUNTER_EVERY_TIME := by
      intro h
      rw [untouchedBy_false_of_every ec h] at ht
      exact Bool.false_ne_true ht
    rw [triggerPass, if_neg h1, if_neg h2, if_neg h4]
    rw [ih st acc (fun u hu => hall u (List.mem_cons_of_mem t hu))]

/-- C10: during event-trigger dispatch at occurrence count `ec`, every
waiting transaction that is error-free, carries an explicit trigger counter
and does not match `ec` is left untouched: it stays in its event list (in
its relative position and with info and response unmodified), it is not
added to the process queue, and a waiting list made up solely of such
transactions leaves the whole client state and emission list unchanged. -/
theorem C10_nonmatching_left_untouched (dev : LwisDevice) (st : ClientState)
    (event_id ec : Int) (aOk : Bool) (l : List Transaction)
    (hl : alistFind event_id st.transaction_list = some l) :
    (∃ Δ, (lwis_transaction_event_trigger dev st event_id ec
          aOk).1.transaction_process_queue
        = st.transaction_process_queue ++ Δ ∧
      ∀ x ∈ Δ, untouchedBy ec x = false) ∧
    (∃ kept, alistFind event_id (lwis_transaction_event_trigger dev st
          event_id ec aOk).1.transaction_list = some kept ∧
      kept.filter (untouchedBy ec) = l.filter (untouchedBy ec) ∧
      ∀ t ∈ l, untouchedBy ec t = true → t ∈ kept) ∧
    ((∀ t ∈ l, untouchedBy ec t = true) →
      lwis_transaction_event_trigger dev st event_id ec aOk = (st, [])) := by
  rw [lwis_transaction_event_trigger, hl]
  dsimp only
  by_cases hnil : l = []
  · rw [if_pos hnil]
    subst hnil
    refine ⟨⟨[], by simp, by simp⟩, ⟨[], hl, rfl, by simp⟩, fun _ => rfl⟩
  · rw [if_neg hnil]
    obtain ⟨ha, hb, Δ, hq, hΔ⟩ := triggerPass_frame dev ec aOk l st []
    refine ⟨⟨Δ, hq, hΔ⟩, ?_, ?_⟩
    · refine ⟨(triggerPass dev ec aOk l st []).1, ?_, hb, ?_⟩
      · dsimp only
        rw [ha]
        exact alistFind_alistSet_self event_id _ st.transaction_list l hl
      · intro t htl htu
        have : t ∈ l.filter (untouchedBy ec) := List.mem_filter.mpr ⟨htl, htu⟩
        rw [← hb] at this
        exact (List.mem_filter.mp this).1
    · intro hall
      rw [triggerPass_skip dev ec aOk l st [] hall]
      dsimp only
      rw [alistSet_self event_id st.transaction_list l hl]

/-- Witness for C10: firing event 50 at occurrence count 9 leaves the
client whose only waiting transaction requires count 7 entirely unchanged
and emits nothing. -/
theorem C10_nonmatching_left_untouched_witness :
    lwis_transaction_event_trigger testDev c10st 50 9 true = (c10st, []) :=
  (C10_nonmatching_left_untouched testDev c10st 50 9 true [c10t]
    (by decide)).2.2 (by decide)

lemma check_param_lt (st : ClientState) (info : TransactionInfo)
    (allow : Bool)
    (hnone : info.trigger_event_id ≠ LWIS_EVENT_ID_NONE)
    (hexp : EXPLICIT_EVENT_COUNTER info.trigger_event_counter = true)
    (hlt : info.trigger_event_counter
      < (alistFind info.trigger_event_id st.dev_event_states).getD 0) :
    check_transaction_param_locked st info allow =
      (-ENOENT,
       { info with current_trigger_event_counter :=
          (alistFind info.trigger_event_id st.dev_event_states).getD 0 },
       st) := by
  rw [check_transaction_param_locked]
  dsimp only
  rw [if_pos hnone]
  cases hfind : alistFind info.trigger_event_id st.dev_event_states with
  | none =>
    dsimp only
    rw [if_pos ⟨hnone, by simp [hexp]⟩]
    rw [hfind] at hlt
    simp only [Option.getD_none] at hlt
    rw [if_neg (by omega), if_pos (by simpa using hlt)]
    simp [hfind]
  | some c =>
    dsimp only
    rw [if_pos ⟨hnone, by simp [hexp]⟩]
    rw [hfind] at hlt
    simp only [Option.getD_some] at hlt
    rw [if_neg (by omega), if_pos (by simpa using hlt)]
    simp [hfind]

lemma check_param_eq_allow (st : ClientState) (info : TransactionInfo)
    (hnone : info.trigger_event_id ≠ LWIS_EVENT_ID_NONE)
    (hexp : EXPLICIT_EVENT_COUNTER info.trigger_event_counter = true)
    (heq : info.trigger_event_counter
      = (alistFind info.trigger_event_id st.dev_event_states).getD 0) :
    check_transaction_param_locked st info true =
      (0,
       { info with
         current_trigger_event_counter :=
          (alistFind info.trigger_event_id st.dev_event_states).getD 0
         trigger_event_id := LWIS_EVENT_ID_NONE },
       ensureEmitEvents st info) := by
  rw [check_transaction_param_locked]
  dsimp only
  rw [if_pos hnone]
  cases hfind : alistFind info.trigger_event_id st.dev_event_states with
  | none =>
    dsimp only
    rw [if_pos ⟨hnone, by simp [hexp]⟩]
    rw [hfind] at heq
    simp only [Option.getD_none] at heq
    rw [if_pos (by simpa using heq), if_pos rfl]
    simp only [hfind, Option.getD_none]
    rfl
  | some c =>
    dsimp only
    rw [if_pos ⟨hnone, by simp [hexp]⟩]
    rw [hfind] at heq
    simp only [Option.getD_some] at heq
    rw [if_pos (by simpa using heq), if_pos rfl]
    simp only [hfind, Option.getD_some]
    rfl

lemma check_param_eq_noallow (st : ClientState) (info : TransactionInfo)
    (hnone : info.trigger_event_id ≠ LWIS_EVENT_ID_NONE)
    (hexp : EXPLICIT_EVENT_COUNTER info.trigger_event_counter = true)
    (heq : info.trigger_event_counter
      = (alistFind info.trigger_event_id st.dev_event_states).getD 0) :
    check_transaction_param_locked st info false =
      (-ENOENT,
       { info with current_trigger_event_counter :=
          (alistFind info.trigger_event_id st.dev_event_states).getD 0 },
       st) := by
  rw [check_transaction_param_locked]
  dsimp only
  rw [if_pos hnone]
  cases hfind : alistFind info.trigger_event_id st.dev_event_states with
  | none =>
    dsimp only
    rw [if_pos ⟨hnone, by simp [hexp]⟩]
    rw [hfind] at heq
    simp only [Option.getD_none] at heq
    rw [if_pos (by simpa using heq), if_neg Bool.false_ne_true]
    simp [hfind]
  | some c =>
    dsimp only
    rw [if_pos ⟨hnone, by simp [hexp]⟩]
    rw [hfind] at heq
    simp only [Option.getD_some] at heq
    rw [if_pos (by simpa using heq), if_neg Bool.false_ne_true]
    simp [hfind]

/-- C1: for a transaction with a trigger event id and an explicit trigger
counter, submit returns `-ENOENT` and leaves the whole client state (ready
queue, event-trigger index, transaction counter) unchanged when the counter
is strictly below the event's current occurrence counter (0 when the event
state is absent); when the counter equals the current one, submit converts
the transaction to an immediate one (queued on the ready queue with no
index entry) if `allow_counter_eq` is set, and otherwise returns `-ENOENT`
with the state unchanged. -/
theorem C1_stale_trigger_counter (dev : LwisDevice) (st : ClientState)
    (info : TransactionInfo) (entries : List LwisIoEntry)
    (respAllocOk listAllocOk : Bool)
    (hnone : info.trigger_event_id ≠ LWIS_EVENT_ID_NONE)
    (hexp : EXPLICIT_EVENT_COUNTER info.trigger_event_counter = true) :
    (info.trigger_event_counter
        < (alistFind info.trigger_event_id st.dev_event_states).getD 0 →
      lwis_transaction_submit_locked dev st info entries respAllocOk
          listAllocOk
        = (-ENOENT,
           { info with current_trigger_event_counter :=
              (alistFind info.trigger_event_id st.dev_event_states).getD 0 },
           st)) ∧
    (info.trigger_event_counter
        = (alistFind info.trigger_event_id st.dev_event_states).getD 0 →
      info.allow_counter_eq = true →
      (lwis_transaction_submit_locked dev st info entries true
          listAllocOk).1 = 0 ∧
      ∃ t, (lwis_transaction_submit_locked dev st info entries true
            listAllocOk).2.2.transaction_process_queue
          = st.transaction_process_queue ++ [t] ∧
        t.info.trigger_event_id = LWIS_EVENT_ID_NONE ∧
        t.info.id = st.transaction_counter ∧
        (lwis_transaction_submit_locked dev st info entries true
            listAllocOk).2.2.transaction_list = st.transaction_list) ∧
    (info.trigger_event_counter
        = (alistFind info.trigger_event_id st.dev_event_states).getD 0 →
      info.allow_counter_eq = false →
      lwis_transaction_submit_locked dev st info entries respAllocOk
          listAllocOk
        = (-ENOENT,
           { info with current_trigger_event_counter :=
              (alistFind info.trigger_event_id st.dev_event_states).getD 0 },
           st)) := by
  refine ⟨?_, ?_, ?_⟩
  · intro hlt
    rw [lwis_transaction_submit_locked]
    dsimp only
    rw [check_param_lt st info info.allow_counter_eq hnone hexp hlt]
    dsimp only
    rw [if_pos (by decide : (-ENOENT : Int) ≠ 0)]
  · intro heq hallow
    rw [lwis_transaction_submit_locked]
    dsimp only
    rw [hallow, check_param_eq_allow st info hnone hexp heq]
    dsimp only
    rw [if_neg (by decide : ¬(0 : Int) ≠ 0)]
    rw [prepare_response_locked]
    dsimp only
    rw [if_pos rfl]
    dsimp only
    rw [queue_transaction_locked]
    dsimp only
    rw [if_pos rfl]
    dsimp only
    rw [if_neg (by decide : ¬(0 : Int) ≠ 0)]
    exact ⟨rfl, _, rfl, rfl, rfl, rfl⟩
  · intro heq hallow
    rw [lwis_transaction_submit_locked]
    dsimp only
    rw [hallow, check_param_eq_noallow st info hnone hexp heq]
    dsimp only
    rw [if_pos (by decide : (-ENOENT : Int) ≠ 0), hallow]

/-- Witness for C1: with event 50 at counter 5, a stale counter-3
submission fails with `-ENOENT` leaving the state unchanged, and a
counter-5 submission with `allow_counter_eq` set succeeds as an immediate
transaction. -/
theorem C1_stale_trigger_counter_witness :
    (lwis_transaction_submit_locked testDev c1st c1infoLt [] true true
      = (-ENOENT,
         { c1infoLt with current_trigger_event_counter :=
            (alistFind c1infoLt.trigger_event_id c1st.dev_event_states).getD 0 },
         c1st)) ∧
    ((lwis_transaction_submit_locked testDev c1st c1infoEq [] true true).1
      = 0) := by
  constructor
  · exact (C1_stale_trigger_counter testDev c1st c1infoLt [] true true
      (by decide) (by decide)).1 (by decide)
  · exact ((C1_stale_trigger_counter testDev c1st c1infoEq [] true true
      (by decide) (by decide)).2.1 (by decide) (by decide)).1

lemma check_param_frame (st : ClientState) (info : TransactionInfo)
    (allow : Bool) :
    (check_transaction_param_locked st info allow).2.2.transaction_counter
        = st.transaction_counter ∧
    (check_transaction_param_locked st info
        allow).2.2.transaction_process_queue
      = st.transaction_process_queue ∧
    (check_transaction_param_locked st info allow).2.2.transaction_list
        = st.transaction_list ∧
    (check_transaction_param_locked st info allow).2.2.nextPtr
        = st.nextPtr ∧
    (check_transaction_param_locked st info allow).2.2.entriesHeap
        = st.entriesHeap := by
  rw [check_transaction_param_locked]
  dsimp only
  by_cases hid : info.trigger_event_id ≠ LWIS_EVENT_ID_NONE
  · rw [if_pos hid]
    cases hfind : alistFind info.trigger_event_id st.dev_event_states <;>
      dsimp only <;>
      split <;>
      first
        | exact ⟨rfl, rfl, rfl, rfl, rfl⟩
        | (split
           · split
             · exact ⟨rfl, rfl, rfl, rfl, rfl⟩
             · exact ⟨rfl, rfl, rfl, rfl, rfl⟩
           · split
             · exact ⟨rfl, rfl, rfl, rfl, rfl⟩
             · exact ⟨rfl, rfl, rfl, rfl, rfl⟩)
  · rw [if_neg hid]
    dsimp only
    rw [if_neg (by
      intro hcon
      exact hid hcon.1)]
    exact ⟨rfl, rfl, rfl, rfl, rfl⟩

lemma submit_counter_step (dev : LwisDevice) (st : ClientState)
    (info : TransactionInfo) (entries : List LwisIoEntry) (rOk lOk : Bool) :
    ((lwis_transaction_submit_locked dev st info entries rOk lOk).1 = 0 →
      (lwis_transaction_submit_locked dev st info entries rOk lOk).2.1.id
          = st.transaction_counter ∧
      (lwis_transaction_submit_locked dev st info entries rOk
          lOk).2.2.transaction_counter
        = st.transaction_counter + 1) ∧
    ((lwis_transaction_submit_locked dev st info entries rOk lOk).1 ≠ 0 →
      (lwis_transaction_submit_locked dev st info entries rOk
          lOk).2.2.transaction_counter
        = st.transaction_counter) := by
  obtain ⟨hcnt, hq, htl, hptr, hheap⟩ :=
    check_param_frame st info info.allow_counter_eq
  rw [lwis_transaction_submit_locked]
  dsimp only
  by_cases hc : (check_transaction_param_locked st info
      info.allow_counter_eq).1 ≠ 0
  · rw [if_pos hc]
    exact ⟨fun h => absurd h hc, fun _ => hcnt⟩
  · rw [if_neg hc]
    rw [prepare_response_locked]
    dsimp only
    cases rOk with
    | false =>
      rw [if_neg Bool.false_ne_true]
      dsimp only
      exact ⟨fun h => absurd h (by decide : (-ENOMEM : Int) ≠ 0),
        fun _ => hcnt⟩
    | true =>
      rw [if_pos rfl]
      dsimp only
      rw [queue_transaction_locked]
      dsimp only
      by_cases hn : (check_transaction_param_locked st info
          info.allow_counter_eq).2.1.trigger_event_id = LWIS_EVENT_ID_NONE
      · rw [if_pos hn]
        dsimp only
        rw [if_neg (by decide : ¬(0 : Int) ≠ 0)]
        exact ⟨fun _ => ⟨hcnt, by rw [hcnt]⟩, fun h => absurd rfl h⟩
      · rw [if_neg hn]
        rw [htl]
        cases hfind : alistFind (check_transaction_param_locked st info
            info.allow_counter_eq).2.1.trigger_event_id
            st.transaction_list with
        | some l =>
          dsimp only
          rw [if_neg (by decide : ¬(0 : Int) ≠ 0)]
          exact ⟨fun _ => ⟨hcnt, by rw [hcnt]⟩, fun h => absurd rfl h⟩
        | none =>
          cases lOk with
          | true =>
            dsimp only
            rw [if_pos rfl]
            dsimp only
            rw [if_neg (by decide : ¬(0 : Int) ≠ 0)]
            exact ⟨fun _ => ⟨hcnt, by rw [hcnt]⟩, fun h => absurd rfl h⟩
          | false =>
            dsimp only
            rw [if_neg Bool.false_ne_true]
            rw [if_pos (by decide : (-EINVAL : Int) ≠ 0)]
            exact ⟨fun h => absurd h (by decide : (-EINVAL : Int) ≠ 0),
              fun _ => hcnt⟩

lemma submitSeq_pairwise (dev : LwisDevice) :
    ∀ (reqs : List SubmitReq) (st : ClientState),
      List.Pairwise (· < ·) (submitSeq dev st reqs) ∧
      ∀ x ∈ submitSeq dev st reqs, st.transaction_counter ≤ x := by
  intro reqs
  induction reqs with
  | nil =>
    intro st
    simp [submitSeq]
  | cons r rest ih =>
    intro st
    simp only [submitSeq]
    by_cases h0 : (lwis_transaction_submit_locked dev st r.1 r.2.1 r.2.2.1
        r.2.2.2).1 = 0
    · rw [if_pos h0]
      obtain ⟨hid, hcnt⟩ :=
        (submit_counter_step dev st r.1 r.2.1 r.2.2.1 r.2.2.2).1 h0
      obtain ⟨hpw, hge⟩ := ih (lwis_transaction_submit_locked dev st r.1
        r.2.1 r.2.2.1 r.2.2.2).2.2
      rw [hcnt] at hge
      constructor
      · refine List.pairwise_cons.mpr ⟨?_, hpw⟩
        intro x hx
        have := hge x hx
        rw [hid]
        omega
      · intro x hx
        rcases List.mem_cons.mp hx with rfl | hx
        · rw [hid]
        · have := hge x hx
          omega
    · rw [if_neg h0]
      obtain ⟨hpw, hge⟩ := ih (lwis_transaction_submit_locked dev st r.1
        r.2.1 r.2.2.1 r.2.2.2).2.2
      rw [(submit_counter_step dev st r.1 r.2.1 r.2.2.1 r.2.2.2).2 h0] at hge
      exact ⟨hpw, hge⟩

/-- C9: within a client, the ids assigned at response-preparation time to
successfully queued transactions are strictly increasing across every
sequence of submissions; each successfully queued transaction receives the
client's current transaction counter as its id and the counter is then
incremented by one, while a failed submission leaves the counter
unchanged. -/
theorem C9_ids_strictly_increasing (dev : LwisDevice) (st : ClientState)
    (reqs : List SubmitReq) (info : TransactionInfo)
    (entries : List LwisIoEntry) (rOk lOk : Bool) :
    List.Pairwise (· < ·) (submitSeq dev st reqs) ∧
    ((lwis_transaction_submit_locked dev st info entries rOk lOk).1 = 0 →
      (lwis_transaction_submit_locked dev st info entries rOk lOk).2.1.id
          = st.transaction_counter ∧
      (lwis_transaction_submit_locked dev st info entries rOk
          lOk).2.2.transaction_counter
        = st.transaction_counter + 1) ∧
    ((lwis_transaction_submit_locked dev st info entries rOk lOk).1 ≠ 0 →
      (lwis_transaction_submit_locked dev st info entries rOk
          lOk).2.2.transaction_counter
        = st.transaction_counter) :=
  ⟨(submitSeq_pairwise dev reqs st).1,
   (submit_counter_step dev st info entries rOk lOk).1,
   (submit_counter_step dev st info entries rOk lOk).2⟩

/-- Witness for C9: two immediate submissions on a fresh client produce the
strictly increasing id list, and the first one is assigned id 0 and bumps
the counter to 1. -/
theorem C9_ids_strictly_increasing_witness :
    List.Pairwise (· < ·) (submitSeq testDev emptyState c9reqs) ∧
    ((lwis_transaction_submit_locked testDev emptyState immediateInfo []
        true true).2.1.id = emptyState.transaction_counter ∧
     (lwis_transaction_submit_locked testDev emptyState immediateInfo []
        true true).2.2.transaction_counter
       = emptyState.transaction_counter + 1) := by
  refine ⟨(C9_ids_strictly_increasing testDev emptyState c9reqs
      immediateInfo [] true true).1, ?_⟩
  exact (C9_ids_strictly_increasing testDev emptyState c9reqs immediateInfo
    [] true true).2.1 (by decide)

lemma cancelInList_isSome (id : Int) :
    ∀ (l : List Transaction), (∃ t ∈ l, t.info.id = id) →
      (cancelInList id l).isSome := by
  intro l
  induction l with
  | nil => rintro ⟨t, ht, -⟩; simp at ht
  | cons t rest ih =>
    rintro ⟨u, hu, hid⟩
    rw [cancelInList]
    by_cases h : t.info.id = id
    · rw [if_pos h]
      rfl
    · rw [if_neg h]
      rcases List.mem_cons.mp hu with rfl | hu
      · exact absurd hid h
      · have := ih ⟨u, hu, hid⟩
        cases hc : cancelInList id rest with
        | none => rw [hc] at this; simp at this
        | some rest' => rfl

lemma cancelInLists_isSome (id : Int) :
    ∀ (L : List (Int × List Transaction)),
      (∃ p ∈ L, ∃ t ∈ p.2, t.info.id = id) →
      (cancelInLists id L).isSome := by
  intro L
  induction L with
  | nil => rintro ⟨p, hp, -⟩; simp at hp
  | cons q rest ih =>
    rintro ⟨p, hp, t, ht, hid⟩
    obtain ⟨eid, l⟩ := q
    rw [cancelInLists]
    cases hc : cancelInList id l with
    | some l' => rfl
    | none =>
      rcases List.mem_cons.mp hp with rfl | hp
      · have := cancelInList_isSome id l ⟨t, ht, hid⟩
        rw [hc] at this
        simp at this
      · have := ih ⟨p, hp, t, ht, hid⟩
        cases hc2 : cancelInLists id rest with
        | none => rw [hc2] at this; simp at this
        | some rest' => rfl

lemma cancelInList_some_spec (id : Int) :
    ∀ (l l' : List Transaction), cancelInList id l = some l' →
      ∃ pre t post, l = pre ++ t :: post ∧ t.info.id = id ∧
        l' = pre ++
          { t with resp := { t.resp with error_code := -ECANCELED } } ::
            post := by
  intro l
  induction l with
  | nil => intro l' h; simp [cancelInList] at h
  | cons t rest ih =>
    intro l' h
    rw [cancelInList] at h
    by_cases hid : t.info.id = id
    · rw [if_pos hid] at h
      simp only [Option.some.injEq] at h
      exact ⟨[], t, rest, rfl, hid, h.symm⟩
    · rw [if_neg hid] at h
      cases hc : cancelInList id rest with
      | none => rw [hc] at h; simp at h
      | some rest' =>
        rw [hc] at h
        simp only [Option.some.injEq] at h
        obtain ⟨pre, u, post, hl, hu, hl'⟩ := ih rest' hc
        exact ⟨t :: pre, u, post, by simp [hl], hu,
          by simp [← h, hl']⟩

lemma cancelInLists_some_spec (id : Int) :
    ∀ (L L' : List (Int × List Transaction)), cancelInLists id L = some L' →
      ∃ L1 eid pre t post L2,
        L = L1 ++ (eid, pre ++ t :: post) :: L2 ∧ t.info.id = id ∧
        L' = L1 ++
          (eid, pre ++
            { t with resp := { t.resp with error_code := -ECANCELED } } ::
              post) :: L2 := by
  intro L
  induction L with
  | nil => intro L' h; simp [cancelInLists] at h
  | cons q rest ih =>
    intro L' h
    obtain ⟨eid, l⟩ := q
    rw [cancelInLists] at h
    cases hc : cancelInList id l with
    | some l' =>
      rw [hc] at h
      simp only [Option.some.injEq] at h
      obtain ⟨pre, t, post, hl, ht, hl'⟩ := cancelInList_some_spec id l l' hc
      exact ⟨[], eid, pre, t, post, rest, by simp [hl], ht,
        by simp [← h, hl']⟩
    | none =>
      rw [hc] at h
      cases hc2 : cancelInLists id rest with
      | none => rw [hc2] at h; simp at h
      | some rest' =>
        rw [hc2] at h
        simp only [Option.some.injEq] at h
        obtain ⟨L1, eid', pre, t, post, L2, hL, ht, hL'⟩ := ih rest' hc2
        exact ⟨(eid, l) :: L1, eid', pre, t, post, L2, by simp [hL], ht,
          by simp [← h, hL']⟩

/-- C6 (amended): when a waiting transaction with id X exists, cancel
returns success and sets that transaction's response error code to
`-ECANCELED` in place — the record stays in its waiting list at its
position — and a second cancel issued before the record has been drained
or triggered finds the same still-listed record and returns success again
(not `-ENOENT` as the claim states). -/
theorem C6_cancel_marks_in_place_and_is_repeatable (st : ClientState)
    (X : Int)
    (hex : ∃ p ∈ st.transaction_list, ∃ t ∈ p.2, t.info.id = X) :
    (lwis_transaction_cancel st X).1 = 0 ∧
    (∃ L1 eid pre t post L2,
      st.transaction_list = L1 ++ (eid, pre ++ t :: post) :: L2 ∧
      t.info.id = X ∧
      (lwis_transaction_cancel st X).2.transaction_list
        = L1 ++
          (eid, pre ++
            { t with resp := { t.resp with error_code := -ECANCELED } } ::
              post) :: L2) ∧
    (lwis_transaction_cancel (lwis_transaction_cancel st X).2 X).1 = 0 := by
  have hsome := cancelInLists_isSome X st.transaction_list hex
  cases hc : cancelInLists X st.transaction_list with
  | none => rw [hc] at hsome; simp at hsome
  | some L' =>
    obtain ⟨L1, eid, pre, t, post, L2, hL, ht, hL'⟩ :=
      cancelInLists_some_spec X st.transaction_list L' hc
    have hres : lwis_transaction_cancel st X = (0, { st with transaction_list := L' }) := by
      rw [lwis_transaction_cancel, cancel_waiting_transaction_locked, hc]
    refine ⟨by rw [hres], ⟨L1, eid, pre, t, post, L2, hL, ht, ?_⟩, ?_⟩
    · rw [hres, hL']
    · rw [hres]
      have hex2 : ∃ p ∈ ({ st with transaction_list := L' } :
          ClientState).transaction_list, ∃ u ∈ p.2, u.info.id = X := by
        refine ⟨(eid, pre ++
          { t with resp := { t.resp with error_code := -ECANCELED } } ::
            post), ?_, ?_⟩
        · rw [hL']
          exact List.mem_append_right L1 (List.mem_cons_self _ _)
        · exact ⟨_, List.mem_append_right pre (List.mem_cons_self _ _), ht⟩
      have hsome2 := cancelInLists_isSome X L' (by simpa using hex2)
      cases hc2 : cancelInLists X L' with
      | none => rw [hc2] at hsome2; simp at hsome2
      | some L'' =>
        rw [lwis_transaction_cancel, cancel_waiting_transaction_locked]
        dsimp only
        rw [hc2]

/-- Counterexample for C6 as stated: on a client whose only waiting
transaction has id 0, the first cancel succeeds and the second cancel
finds the same still-listed (now error-flagged) record and returns 0
again, not `-ENOENT`. -/
theorem C6_second_cancel_counterexample :
    (lwis_transaction_cancel c10st 0).1 = 0 ∧
    (lwis_transaction_cancel (lwis_transaction_cancel c10st 0).2 0).1 = 0 ∧
    (lwis_transaction_cancel (lwis_transaction_cancel c10st 0).2 0).1
      ≠ -ENOENT := by
  decide

/-- Witness for C6's amended theorem at the concrete one-transaction
client. -/
theorem C6_cancel_marks_in_place_witness :
    (lwis_transaction_cancel c10st 0).1 = 0 ∧
    (∃ L1 eid pre t post L2,
      c10st.transaction_list = L1 ++ (eid, pre ++ t :: post) :: L2 ∧
      t.info.id = 0 ∧
      (lwis_transaction_cancel c10st 0).2.transaction_list
        = L1 ++
          (eid, pre ++
            { t with resp := { t.resp with error_code := -ECANCELED } } ::
              post) :: L2) ∧
    (lwis_transaction_cancel (lwis_transaction_cancel c10st 0).2 0).1 = 0 :=
  C6_cancel_marks_in_place_and_is_repeatable c10st 0
    ⟨(50, [c10t]), by decide, c10t, by decide, by decide⟩

lemma cancel_transaction_queue_eq (st : ClientState) (t : Transaction)
    (e : Int) (b : Bool) :
    (cancel_transaction st t e b).1.transaction_process_queue
      = st.transaction_process_queue := rfl

lemma cancel_transaction_tlist_eq (st : ClientState) (t : Transaction)
    (e : Int) (b : Bool) :
    (cancel_transaction st t e b).1.transaction_list
      = st.transaction_list := rfl

lemma drainQueue_facts (dev : LwisDevice) :
    ∀ (l : List Transaction) (st : ClientState) (acc : List Emission),
      (drainQueue dev l st acc).1.transaction_process_queue
          = st.transaction_process_queue ∧
      (drainQueue dev l st acc).1.transaction_list = st.transaction_list ∧
      (drainQueue dev l st acc).2.length = acc.length + l.length := by
  intro l
  induction l with
  | nil =>
    intro st acc
    exact ⟨rfl, rfl, by simp [drainQueue]⟩
  | cons t rest ih =>
    intro st acc
    rw [drainQueue]
    by_cases h : t.resp.error_code ≠ 0
    · rw [if_pos h]
      obtain ⟨hq, htl, hlen⟩ := ih (cancel_transaction st t
        t.resp.error_code true).1 (acc ++ (cancel_transaction st t
        t.resp.error_code true).2)
      refine ⟨hq.trans rfl, htl.trans rfl, ?_⟩
      rw [hlen]
      simp [cancel_transaction]
      omega
    · rw [if_neg h]
      obtain ⟨hq, htl, hlen⟩ := ih (process_transaction dev st t true).1
        (acc ++ (process_transaction dev st t true).2)
      refine ⟨hq.trans (process_transaction_queue_eq dev st t true),
        htl.trans (process_transaction_tlist_eq dev st t true), ?_⟩
      rw [hlen]
      simp [process_transaction]
      omega

lemma foldl_cancel_facts :
    ∀ (l : List Transaction) (st : ClientState),
      (l.foldl (fun s t => (cancel_transaction s t (-ECANCELED) false).1)
          st).transaction_process_queue = st.transaction_process_queue ∧
      (l.foldl (fun s t => (cancel_transaction s t (-ECANCELED) false).1)
          st).transaction_list = st.transaction_list := by
  intro l
  induction l with
  | nil => intro st; exact ⟨rfl, rfl⟩
  | cons t rest ih =>
    intro st
    rw [List.foldl_cons]
    obtain ⟨hq, htl⟩ := ih (cancel_transaction st t (-ECANCELED) false).1
    exact ⟨hq.trans rfl, htl.trans rfl⟩

lemma flushLists_facts :
    ∀ (L : List (Int × List Transaction)) (st : ClientState),
      (flushLists L st).1
          = L.filter (fun p => p.1 == LWIS_EVENT_ID_CLIENT_CLEANUP) ∧
      (flushLists L st).2.transaction_process_queue
          = st.transaction_process_queue := by
  intro L
  induction L with
  | nil => intro st; exact ⟨rfl, rfl⟩
  | cons q rest ih =>
    intro st
    obtain ⟨eid, l⟩ := q
    rw [flushLists]
    by_cases h : eid = LWIS_EVENT_ID_CLIENT_CLEANUP
    · rw [if_pos h]
      obtain ⟨hk, hq⟩ := ih st
      refine ⟨?_, hq⟩
      rw [List.filter_cons_of_pos (by simpa using h)]
      dsimp only
      rw [hk]
    · rw [if_neg h]
      obtain ⟨hk, hq⟩ := ih (l.foldl (fun s t =>
        (cancel_transaction s t (-ECANCELED) false).1) st)
      refine ⟨?_, ?_⟩
      · rw [List.filter_cons_of_neg (by simpa using h)]
        exact hk
      · rw [hq]
        exact (foldl_cancel_facts l st).1

/-- C5 (amended): flush cancels all waiting transactions silently (their
cancellations pass a NULL pending-event list, so they emit nothing), drains
the worker so that each of the K transactions already in the ready queue
emits exactly one completion or cancellation event, and returns with the
ready queue empty and the event-trigger index reduced to (at most) the
reserved client-cleanup list. -/
theorem C5_flush_drains_without_cancel_emissions (dev : LwisDevice)
    (st : ClientState) :
    (lwis_transaction_client_flush dev st).1.transaction_process_queue
        = [] ∧
    (∀ p ∈ (lwis_transaction_client_flush dev st).1.transaction_list,
      p.1 = LWIS_EVENT_ID_CLIENT_CLEANUP) ∧
    (lwis_transaction_client_flush dev st).2.length
        = st.transaction_process_queue.length := by
  obtain ⟨hfk, hfq⟩ := flushLists_facts st.transaction_list st
  rw [lwis_transaction_client_flush]
  dsimp only
  obtain ⟨hwq, hwtl, hwlen⟩ := drainQueue_facts dev
    ({ (flushLists st.transaction_list st).2 with
       transaction_list := (flushLists st.transaction_list st).1 } :
      ClientState).transaction_process_queue
    { ({ (flushLists st.transaction_list st).2 with
         transaction_list := (flushLists st.transaction_list st).1 } :
        ClientState) with transaction_process_queue := [] }
    []
  rw [transaction_work_func]
  refine ⟨?_, ?_, ?_⟩
  · rw [(foldl_cancel_facts _ _).1]
  · intro p hp
    rw [(foldl_cancel_facts _ _).2] at hp
    rw [hwtl] at hp
    dsimp only at hp
    rw [hfk] at hp
    have := List.of_mem_filter hp
    simpa using this
  · rw [hwlen]
    simp only [List.length_nil, Nat.zero_add]
    exact congrArg List.length hfq

/-- Witness for C5's amended theorem at the concrete one-waiting-client:
flush leaves the queue empty and emits exactly as many events as there
were queued transactions (zero). -/
theorem C5_flush_drains_witness :
    (lwis_transaction_client_flush testDev
        c10st).1.transaction_process_queue = [] ∧
    (lwis_transaction_client_flush testDev c10st).2.length
      = c10st.transaction_process_queue.length :=
  ⟨(C5_flush_drains_without_cancel_emissions testDev c10st).1,
   (C5_flush_drains_without_cancel_emissions testDev c10st).2.2⟩

/-- Counterexample for C5 as stated: a client with M = 1 waiting
transaction and K = 0 queued transactions; the claim demands exactly
K + M = 1 cancellation emissions, but flush emits nothing (waiting
transactions are cancelled with a NULL pending-event list). -/
theorem C5_flush_emits_nothing_counterexample :
    (lwis_transaction_client_flush testDev c10st).2 = [] ∧
    (c10st.transaction_list.map Prod.snd).flatten.length = 1 ∧
    c10st.transaction_process_queue = [] := by
  decide

lemma heapFind_heapSet_self (p : Nat) (v : List LwisIoEntry) :
    ∀ (h : List (Nat × List LwisIoEntry)) (w : List LwisIoEntry),
      heapFind p h = some w → heapFind p (heapSet p v h) = some v := by
  intro h
  induction h with
  | nil => intro w hw; simp [heapFind] at hw
  | cons q rest ih =>
    intro w hw
    obtain ⟨p', v'⟩ := q
    by_cases hp : p' = p
    · subst hp
      simp [heapFind, heapSet]
    · simp only [heapFind, heapSet, if_neg hp] at hw ⊢
      exact ih w hw

lemma triggerPass_every_inline (dev : LwisDevice) (st : ClientState)
    (t : Transaction) (ec : Int) (acc : List Emission)
    (herr : t.resp.error_code = 0)
    (htc : t.info.trigger_event_counter = LWIS_EVENT_COUNTER_EVERY_TIME)
    (hec : ec ≠ LWIS_EVENT_COUNTER_EVERY_TIME)
    (hrun : t.info.run_in_event_context = true)
    (hi2c : dev.isI2c = false) :
    triggerPass dev ec true [t] st acc =
      ([t],
       (process_transaction dev st (new_repeating_transaction_iteration t)
         true).1,
       acc ++ (process_transaction dev st
         (new_repeating_transaction_iteration t) true).2) := by
  rw [triggerPass]
  rw [if_neg (by simp [herr])]
  rw [if_neg (by
    rintro (h | h)
    · rw [htc] at h
      exact absurd h (by decide)
    · rw [htc] at h
      exact hec h.symm)]
  rw [if_pos htc, if_pos rfl, if_pos ⟨hrun, by simp [hi2c]⟩]
  rfl

lemma trigger_every_inline (dev : LwisDevice) (st : ClientState)
    (t : Transaction) (E ec : Int)
    (hl : alistFind E st.transaction_list = some [t])
    (herr : t.resp.error_code = 0)
    (htc : t.info.trigger_event_counter = LWIS_EVENT_COUNTER_EVERY_TIME)
    (hec : ec ≠ LWIS_EVENT_COUNTER_EVERY_TIME)
    (hrun : t.info.run_in_event_context = true)
    (hi2c : dev.isI2c = false) :
    lwis_transaction_event_trigger dev st E ec true =
      process_transaction dev st (new_repeating_transaction_iteration t)
        true := by
  rw [lwis_transaction_event_trigger, hl]
  dsimp only
  rw [if_neg (by simp : ¬([t] : List Transaction) = [])]
  rw [triggerPass_every_inline dev st t ec [] herr htc hec hrun hi2c]
  dsimp only
  rw [process_transaction_tlist_eq, alistSet_self E st.transaction_list [t] hl]
  rfl

lemma fireN_every_inline (dev : LwisDevice) (st : ClientState)
    (t : Transaction) (E ec : Int)
    (hl : alistFind E st.transaction_list = some [t])
    (herr : t.resp.error_code = 0)
    (htc : t.info.trigger_event_counter = LWIS_EVENT_COUNTER_EVERY_TIME)
    (hec : ec ≠ LWIS_EVENT_COUNTER_EVERY_TIME)
    (hrun : t.info.run_in_event_context = true)
    (hi2c : dev.isI2c = false) :
    ∀ n, alistFind E (fireN dev E ec n st).1.transaction_list = some [t] ∧
      (fireN dev E ec n st).2.length = n := by
  intro n
  induction n with
  | zero => exact ⟨hl, rfl⟩
  | succ n ih =>
    obtain ⟨ihl, ihlen⟩ := ih
    rw [fireN]
    dsimp only
    have htr := trigger_every_inline dev (fireN dev E ec n st).1 t E ec ihl
      herr htc hec hrun hi2c
    constructor
    · rw [htr, process_transaction_tlist_eq]
      exact ihl
    · rw [htr, List.length_append, ihlen]
      rfl

/-- C2: when an event fires for a waiting error-free EVERY_TIME
transaction (eligible to run in event context on a non-I2C device), a
clone built from the original's info — and hence sharing, through
`entriesPtr`, the original's I/O entry list — with a fresh response buffer
carrying the original's id and `results_size_bytes` is executed inline;
exactly one completion is emitted per firing, the original record stays in
its event list (so N firings yield N emissions with the original still
waiting), the clone's run reads and updates the entry array stored at the
original's pointer, and if clone allocation fails the original's response
error is set to `-ENOMEM`, it is moved to the ready queue and nothing is
emitted. -/
theorem C2_every_time_clones (dev : LwisDevice) (st : ClientState)
    (t : Transaction) (E ec : Int) (es : List LwisIoEntry)
    (hl : alistFind E st.transaction_list = some [t])
    (herr : t.resp.error_code = 0)
    (htc : t.info.trigger_event_counter = LWIS_EVENT_COUNTER_EVERY_TIME)
    (hec : ec ≠ LWIS_EVENT_COUNTER_EVERY_TIME)
    (hrun : t.info.run_in_event_context = true)
    (hi2c : dev.isI2c = false)
    (hheap : heapFind t.info.entriesPtr st.entriesHeap = some es) :
    (alistFind E (lwis_transaction_event_trigger dev st E ec
          true).1.transaction_list = some [t] ∧
      (lwis_transaction_event_trigger dev st E ec
          true).1.transaction_process_queue
        = st.transaction_process_queue ∧
      (lwis_transaction_event_trigger dev st E ec true).2.length = 1 ∧
      (∀ em ∈ (lwis_transaction_event_trigger dev st E ec true).2,
        em.resp.id = t.resp.id ∧
        em.resp.results_size_bytes = t.resp.results_size_bytes ∧
        em.resp.num_entries = t.resp.num_entries) ∧
      heapFind t.info.entriesPtr (lwis_transaction_event_trigger dev st E
          ec true).1.entriesHeap
        = some (runEntries dev es st.regs 0 0).entries) ∧
    (lwis_transaction_event_trigger dev st E ec false).2 = [] ∧
    (lwis_transaction_event_trigger dev st E ec
        false).1.transaction_process_queue
      = st.transaction_process_queue ++
        [{ t with resp := { t.resp with error_code := -ENOMEM } }] ∧
    alistFind E (lwis_transaction_event_trigger dev st E ec
        false).1.transaction_list = some [] ∧
    (∀ n, alistFind E (fireN dev E ec n st).1.transaction_list
        = some [t] ∧
      (fireN dev E ec n st).2.length = n) := by
  have htr := trigger_every_inline dev st t E ec hl herr htc hec hrun hi2c
  have hfailpass : triggerPass dev ec false [t] st [] =
      ([], { st with transaction_process_queue :=
        st.transaction_process_queue ++
          [{ t with resp := { t.resp with error_code := -ENOMEM } }] },
       []) := by
    rw [triggerPass]
    rw [if_neg (by simp [herr])]
    rw [if_neg (by
      rintro (h | h)
      · rw [htc] at h
        exact absurd h (by decide)
      · rw [htc] at h
        exact hec h.symm)]
    rw [if_pos htc, if_neg Bool.false_ne_true]
    rfl
  have hfail : lwis_transaction_event_trigger dev st E ec false =
      ({ { st with transaction_process_queue :=
            st.transaction_process_queue ++
              [{ t with resp := { t.resp with error_code := -ENOMEM } }] }
          with transaction_list := alistSet E [] st.transaction_list },
       []) := by
    rw [lwis_transaction_event_trigger, hl]
    dsimp only
    rw [if_neg (by simp : ¬([t] : List Transaction) = [])]
    rw [hfailpass]
  refine ⟨⟨?_, ?_, ?_, ?_, ?_⟩, ?_, ?_, ?_,
    fireN_every_inline dev st t E ec hl herr htc hec hrun hi2c⟩
  · rw [htr, process_transaction_tlist_eq]
    exact hl
  · rw [htr, process_transaction_queue_eq]
  · rw [htr]
    rfl
  · rw [htr]
    intro em hem
    rw [process_transaction] at hem
    simp only [if_true, List.mem_singleton] at hem
    subst hem
    exact ⟨rfl, rfl, rfl⟩
  · rw [htr, process_transaction]
    dsimp only
    rw [if_pos (show (new_repeating_transaction_iteration
        t).info.trigger_event_counter = LWIS_EVENT_COUNTER_EVERY_TIME
      from htc)]
    rw [show (heapFind (new_repeating_transaction_iteration
        t).info.entriesPtr st.entriesHeap) = some es from hheap]
    simp only [Option.getD_some]
    exact heapFind_heapSet_self t.info.entriesPtr _ st.entriesHeap es hheap
  · rw [hfail]
  · rw [hfail]
  · rw [hfail]
    dsimp only
    exact alistFind_alistSet_self E [] st.transaction_list [t] hl

/-- Witness for C2 at the concrete EVERY_TIME client: one firing emits one
event and keeps the original waiting; two firings emit two. -/
theorem C2_every_time_clones_witness :
    alistFind 50 (lwis_transaction_event_trigger testDev c7st 50 1
        true).1.transaction_list = some [c2t] ∧
    (lwis_transaction_event_trigger testDev c7st 50 1 true).2.length = 1 ∧
    (fireN testDev 50 1 2 c7st).2.length = 2 := by
  have h := C2_every_time_clones testDev c7st c2t 50 1 c7entries (by decide)
    (by decide) (by decide) (by decide) (by decide) (by decide) (by decide)
  exact ⟨h.1.1, h.1.2.2.1, (h.2.2.2.2 2).2⟩

lemma cancelInList_eq_none (id : Int) :
    ∀ (l : List Transaction), (∀ t ∈ l, t.info.id ≠ id) →
      cancelInList id l = none := by
  intro l
  induction l with
  | nil => intro _; rfl
  | cons t rest ih =>
    intro h
    rw [cancelInList, if_neg (h t (List.mem_cons_self t rest)),
      ih (fun u hu => h u (List.mem_cons_of_mem t hu))]

lemma cancelInLists_eq_none (id : Int) :
    ∀ (L : List (Int × List Transaction)),
      (∀ p ∈ L, ∀ t ∈ p.2, t.info.id ≠ id) → cancelInLists id L = none := by
  intro L
  induction L with
  | nil => intro _; rfl
  | cons q rest ih =>
    intro h
    obtain ⟨eid, l⟩ := q
    rw [cancelInLists,
      cancelInList_eq_none id l (h (eid, l) (List.mem_cons_self _ _)),
      ih (fun p hp => h p (List.mem_cons_of_mem _ hp))]

lemma check_param_id (st : ClientState) (info : TransactionInfo)
    (allow : Bool) :
    (check_transaction_param_locked st info allow).2.1.id = info.id := by
  rw [check_transaction_param_locked]
  dsimp only
  by_cases hid : info.trigger_event_id ≠ LWIS_EVENT_ID_NONE
  · rw [if_pos hid]
    cases hfind : alistFind info.trigger_event_id st.dev_event_states <;>
      dsimp only <;>
      split <;>
      first
        | rfl
        | (split
           · split
             · rfl
             · rfl
           · split
             · rfl
             · rfl)
  · rw [if_neg hid]
    dsimp only
    rw [if_neg (by
      intro hcon
      exact hid hcon.1)]

/-- C8 (amended): replace validates like submit except that the
counter-equality conversion is disabled (`allow_counter_eq` is passed as
false, so an equal trigger counter is rejected with `-ENOENT` even when
the transaction allows it); after a passing validation it fails with
`-ENOENT` — with the queue, index and counter untouched — unless a waiting
transaction with the submitted id exists; only then does it mark that
transaction Canceled in place and prepare and queue the replacement, which
receives the client's current transaction counter as its id and increments
the counter. -/
theorem C8_replace_validates_without_counter_eq (dev : LwisDevice)
    (st : ClientState) (info : TransactionInfo)
    (entries : List LwisIoEntry) (listAllocOk : Bool) :
    (info.trigger_event_id ≠ LWIS_EVENT_ID_NONE →
      EXPLICIT_EVENT_COUNTER info.trigger_event_counter = true →
      info.trigger_event_counter
          = (alistFind info.trigger_event_id st.dev_event_states).getD 0 →
      lwis_transaction_replace_locked dev st info entries true listAllocOk
        = (-ENOENT,
           { info with current_trigger_event_counter :=
              (alistFind info.trigger_event_id st.dev_event_states).getD 0 },
           st)) ∧
    ((check_transaction_param_locked st info false).1 = 0 →
      (∀ p ∈ st.transaction_list, ∀ u ∈ p.2, u.info.id ≠ info.id) →
      (lwis_transaction_replace_locked dev st info entries true
          listAllocOk).1 = -ENOENT ∧
      (lwis_transaction_replace_locked dev st info entries true
          listAllocOk).2.2.transaction_process_queue
        = st.transaction_process_queue ∧
      (lwis_transaction_replace_locked dev st info entries true
          listAllocOk).2.2.transaction_list = st.transaction_list ∧
      (lwis_transaction_replace_locked dev st info entries true
          listAllocOk).2.2.transaction_counter = st.transaction_counter) ∧
    ((check_transaction_param_locked st info false).1 = 0 →
      (∃ p ∈ st.transaction_list, ∃ u ∈ p.2, u.info.id = info.id) →
      (lwis_transaction_replace_locked dev st info entries true true).1
          = 0 ∧
      (lwis_transaction_replace_locked dev st info entries true
          true).2.1.id = st.transaction_counter ∧
      (lwis_transaction_replace_locked dev st info entries true
          true).2.2.transaction_counter = st.transaction_counter + 1 ∧
      ∃ L1 eid pre u post L2,
        st.transaction_list = L1 ++ (eid, pre ++ u :: post) :: L2 ∧
        u.info.id = info.id ∧
        cancelInLists info.id st.transaction_list
          = some (L1 ++
              (eid, pre ++
                { u with
                  resp := { u.resp with error_code := -ECANCELED } } ::
                  post) :: L2)) := by
  obtain ⟨hcnt, hq, htl, hptr, hheap⟩ := check_param_frame st info false
  have hid := check_param_id st info false
  refine ⟨?_, ?_, ?_⟩
  · intro hnone hexp heq
    rw [lwis_transaction_replace_locked]
    dsimp only
    rw [check_param_eq_noallow st info hnone hexp heq]
    dsimp only
    rw [if_pos (by decide : (-ENOENT : Int) ≠ 0)]
  · intro hc0 hno
    have hnone2 : cancelInLists info.id
        (check_transaction_param_locked st info
          false).2.2.transaction_list = none := by
      rw [htl]
      exact cancelInLists_eq_none info.id st.transaction_list hno
    rw [lwis_transaction_replace_locked]
    dsimp only
    rw [if_neg (by rw [hc0]; exact fun h => h rfl)]
    rw [cancel_waiting_transaction_locked]
    rw [hid, hnone2]
    rw [if_pos (by decide : (-ENOENT : Int) ≠ 0)]
    exact ⟨rfl, hq, htl, hcnt⟩
  · intro hc0 hex
    have hex2 : ∃ p ∈ (check_transaction_param_locked st info
        false).2.2.transaction_list, ∃ u ∈ p.2, u.info.id = info.id := by
      rw [htl]
      exact hex
    have hsome := cancelInLists_isSome info.id _ hex2
    cases hc : cancelInLists info.id (check_transaction_param_locked st
        info false).2.2.transaction_list with
    | none => rw [hc] at hsome; simp at hsome
    | some L' =>
      rw [htl] at hc
      obtain ⟨L1, eid, pre, u, post, L2, hL, hu, hL'⟩ :=
        cancelInLists_some_spec info.id st.transaction_list L' hc
      rw [lwis_transaction_replace_locked]
      dsimp only
      rw [if_neg (by rw [hc0]; exact fun h => h rfl)]
      rw [cancel_waiting_transaction_locked]
      rw [hid, htl, hc]
      rw [if_neg (by decide : ¬(0 : Int) ≠ 0)]
      rw [prepare_response_locked]
      dsimp only
      rw [if_pos rfl]
      dsimp only
      rw [queue_transaction_locked]
      dsimp only
      by_cases hn : (check_transaction_param_locked st info
          false).2.1.trigger_event_id = LWIS_EVENT_ID_NONE
      · rw [if_pos hn]
        dsimp only
        rw [if_neg (by decide : ¬(0 : Int) ≠ 0)]
        exact ⟨rfl, hcnt, by rw [hcnt], L1, eid, pre, u, post, L2, hL, hu,
          by rw [hL']⟩
      · rw [if_neg hn]
        cases hfind : alistFind (check_transaction_param_locked st info
            false).2.1.trigger_event_id L' with
        | some l =>
          dsimp only
          rw [if_neg (by decide : ¬(0 : Int) ≠ 0)]
          exact ⟨rfl, hcnt, by rw [hcnt], L1, eid, pre, u, post, L2, hL, hu,
            by rw [hL']⟩
        | none =>
          dsimp only
          rw [if_pos rfl]
          dsimp only
          rw [if_neg (by decide : ¬(0 : Int) ≠ 0)]
          exact ⟨rfl, hcnt, by rw [hcnt], L1, eid, pre, u, post, L2, hL, hu,
            by rw [hL']⟩

/-- Counterexample for C8 as stated: with event 50 at occurrence counter 5
and a waiting transaction carrying the submitted id, a transaction whose
trigger counter equals 5 and has `allow_counter_eq` set is accepted by
submit (converted to an immediate one) but rejected by replace with
`-ENOENT` — replace does not perform the same validation as submit. -/
theorem C8_replace_rejects_counter_eq_counterexample :
    (lwis_transaction_submit_locked testDev c8st c8info [] true true).1
        = 0 ∧
    (∃ p ∈ c8st.transaction_list, ∃ u ∈ p.2, u.info.id = c8info.id) ∧
    (lwis_transaction_replace_locked testDev c8st c8info [] true true).1
        = -ENOENT := by
  refine ⟨by decide, ⟨(50, [c10t]), by decide, c10t, by decide, by decide⟩,
    by decide⟩

/-- Witness for C8's amended theorem: replacing waiting transaction 0 with
an immediate transaction on the concrete client succeeds, assigns the
counter as the new id, bumps the counter, and marks the old record
Canceled in place. -/
theorem C8_replace_validates_witness :
    (lwis_transaction_replace_locked testDev c10st immediateInfo [] true
        true).1 = 0 ∧
    (lwis_transaction_replace_locked testDev c10st immediateInfo [] true
        true).2.1.id = c10st.transaction_counter ∧
    (lwis_transaction_replace_locked testDev c10st immediateInfo [] true
        true).2.2.transaction_counter = c10st.transaction_counter + 1 := by
  have h := (C8_replace_validates_without_counter_eq testDev c10st
    immediateInfo [] true).2.2 (by decide)
    ⟨(50, [c10t]), by decide, c10t, by decide, by decide⟩
  exact ⟨h.1, h.2.1, h.2.2.1⟩

lemma pollLoop_ok_has_match (tr : PollTrace) (p m tmo : Nat)
    (herr : ∀ j e, tr.readResult j = .error e → e ≠ 0) :
    ∀ fuel i, pollLoop tr p m tmo fuel i = some 0 →
      ∃ j v, tr.readResult j = .ok v ∧ v &&& m = p &&& m := by
  intro fuel
  induction fuel with
  | zero => intro i h; simp [pollLoop] at h
  | succ n ih =>
    intro i h
    rw [pollLoop] at h
    cases hr : tr.readResult i with
    | error e =>
      rw [hr] at h
      dsimp only at h
      simp only [Option.some.injEq] at h
      exact absurd h (herr i e hr)
    | ok v =>
      rw [hr] at h
      dsimp only at h
      by_cases hm : v &&& m = p &&& m
      · exact ⟨i, v, hr, hm⟩
      · have hmb : (v &&& m == p &&& m) = false := by simpa using hm
        rw [hmb] at h
        simp only [Bool.false_eq_true, if_false] at h
        by_cases ht : tmo < tr.timeAfter i - tr.start
        · rw [if_pos ht] at h
          simp only [Option.some.injEq] at h
          exact absurd h (by decide)
        · rw [if_neg ht] at h
          by_cases hv : v = p
          · rw [if_neg (by simp [hv])] at h
            simp only [Option.some.injEq] at h
            exact absurd h (by decide)
          · rw [if_pos hv] at h
            exact ih (i + 1) h

lemma pollLoop_timeout (tr : PollTrace) (p m tmo : Nat)
    (hnm : ∀ j, ∃ v, tr.readResult j = .ok v ∧ v &&& m ≠ p &&& m) :
    ∀ fuel i, (∃ k, k < fuel ∧ tmo < tr.timeAfter (i + k) - tr.start) →
      pollLoop tr p m tmo fuel i = some (-ETIMEDOUT) := by
  intro fuel
  induction fuel with
  | zero =>
    rintro i ⟨k, hk, -⟩
    exact absurd hk (Nat.not_lt_zero k)
  | succ n ih =>
    rintro i ⟨k, hk, hkt⟩
    rw [pollLoop]
    obtain ⟨v, hr, hm⟩ := hnm i
    rw [hr]
    dsimp only
    have hmb : (v &&& m == p &&& m) = false := by simpa using hm
    rw [hmb]
    simp only [Bool.false_eq_true, if_false]
    by_cases ht : tmo < tr.timeAfter i - tr.start
    · rw [if_pos ht]
    · rw [if_neg ht]
      have hv : v ≠ p := fun hvp => hm (by rw [hvp])
      rw [if_pos hv]
      have hk0 : k ≠ 0 := by
        intro h0
        rw [h0, Nat.add_zero] at hkt
        exact ht hkt
      apply ih
      refine ⟨k - 1, by omega, ?_⟩
      have : i + 1 + (k - 1) = i + k := by omega
      rw [this]
      exact hkt

lemma pollLoop_error_passthrough (tr : PollTrace) (p m tmo : Nat)
    (n : Nat) (e : Int)
    (hpre : ∀ j, j < n → ∃ v, tr.readResult j = .ok v ∧
      v &&& m ≠ p &&& m ∧ tr.timeAfter j - tr.start ≤ tmo)
    (hn : tr.readResult n = .error e) :
    ∀ fuel i, i ≤ n → n - i < fuel → pollLoop tr p m tmo fuel i = some e := by
  intro fuel
  induction fuel with
  | zero =>
    intro i _ h
    exact absurd h (Nat.not_lt_zero _)
  | succ f ih =>
    intro i hin hfu
    rw [pollLoop]
    by_cases hi : i = n
    · rw [hi, hn]
    · have hilt : i < n := lt_of_le_of_ne hin hi
      obtain ⟨v, hv, hm, ht⟩ := hpre i hilt
      rw [hv]
      dsimp only
      have hmb : (v &&& m == p &&& m) = false := by simpa using hm
      rw [hmb]
      simp only [Bool.false_eq_true, if_false]
      rw [if_neg (not_lt.mpr ht)]
      have hvp : v ≠ p := fun hvp => hm (by rw [hvp])
      rw [if_pos hvp]
      exact ih (i + 1) (by omega) (by omega)

lemma pollInit_ne (p : Nat) : 2 ^ 64 - 1 - p % 2 ^ 64 ≠ p := by
  have h64 : (2 : Nat) ^ 64 = 18446744073709551616 := by norm_num
  rw [h64]
  omega

lemma lwis_entry_poll_eq_loop (tr : PollTrace) (p m tmo fuel : Nat) :
    lwis_entry_poll tr p m tmo fuel = pollLoop tr p m tmo fuel 0 := by
  rw [lwis_entry_poll]
  exact if_pos (pollInit_ne p)

/-- C4: `lwis_entry_poll` succeeds only when some performed register read
matches the expected value under the mask; when every read comes back
unmatched and the clock passes the timeout within the available attempts it
fails with `-ETIMEDOUT` (never success); a backend read error is returned
as-is; and with mask 0xFF, expected 0x3 and a backend that always returns
0x0 the poll times out. -/
theorem C4_poll_match_timeout_error (tr : PollTrace) (p m tmo fuel : Nat) :
    ((∀ j e, tr.readResult j = .error e → e ≠ 0) →
      lwis_entry_poll tr p m tmo fuel = some 0 →
      ∃ j v, tr.readResult j = .ok v ∧ v &&& m = p &&& m) ∧
    ((∀ j, ∃ v, tr.readResult j = .ok v ∧ v &&& m ≠ p &&& m) →
      (∃ k, k < fuel ∧ tmo < tr.timeAfter k - tr.start) →
      lwis_entry_poll tr p m tmo fuel = some (-ETIMEDOUT)) ∧
    (∀ n e,
      (∀ j, j < n → ∃ v, tr.readResult j = .ok v ∧ v &&& m ≠ p &&& m ∧
        tr.timeAfter j - tr.start ≤ tmo) →
      tr.readResult n = .error e → n < fuel →
      lwis_entry_poll tr p m tmo fuel = some e) ∧
    lwis_entry_poll pollTraceZero 3 255 10 20 = some (-ETIMEDOUT) := by
  refine ⟨?_, ?_, ?_, by decide⟩
  · intro herr h
    rw [lwis_entry_poll_eq_loop] at h
    exact pollLoop_ok_has_match tr p m tmo herr fuel 0 h
  · rintro hnm ⟨k, hk, hkt⟩
    rw [lwis_entry_poll_eq_loop]
    exact pollLoop_timeout tr p m tmo hnm fuel 0 ⟨k, hk, by simpa using hkt⟩
  · intro n e hpre hn hfu
    rw [lwis_entry_poll_eq_loop]
    exact pollLoop_error_passthrough tr p m tmo n e hpre hn fuel 0
      (Nat.zero_le n) (by omega)

/-- Witness for C4: the timeout conjunct at the all-zero trace and the
error-passthrough conjunct at the always-erroring trace. -/
theorem C4_poll_match_timeout_error_witness :
    lwis_entry_poll pollTraceZero 3 255 10 20 = some (-ETIMEDOUT) ∧
    lwis_entry_poll pollTraceErr 3 255 10 20 = some (-5) := by
  constructor
  · exact (C4_poll_match_timeout_error pollTraceZero 3 255 10 20).2.1
      (fun j => ⟨0, rfl, by decide⟩) ⟨10, by norm_num, by decide⟩
  · exact (C4_poll_match_timeout_error pollTraceErr 3 255 10 20).2.2.1 0 (-5)
      (fun j hj => absurd hj (Nat.not_lt_zero j)) rfl (by norm_num)

end LWIS
